import Mathlib

/-!
Verification of the fungi-obsidian-project ingestion scripts against their
natural-language specification.

The development shallowly embeds the three Python scripts:
  * `scripts/ingest_catalogueoflife.py`  (taxonomy crawler),
  * `scripts/ingest_funguild.py`         (guid-keyed flat dataset),
  * `scripts/ingest_nemaguild.py`        (taxon-keyed flat dataset).

Pure functions become Lean functions; the SQLite store becomes an explicit
list of rows threaded through the operations; fallible code returns
`Except`/`Option`.  Python string primitives (strip, upper, int(), the
citation-separator regex split) are modelled over ASCII, which covers every
string the scripts and the specification exercise.
-/

namespace Fungi

/-! ## Python string primitives -/

/-- ASCII whitespace, as recognised by Python's `str.strip` and `\s`. -/
def pyWs (c : Char) : Bool :=
  c = ' ' || c = '\t' || c = '\n' || c = '\r' || c = '\x0b' || c = '\x0c'

/-- Python `str.strip()`. -/
def pyStrip (s : String) : String :=
  String.mk (((s.data.dropWhile pyWs).reverse.dropWhile pyWs).reverse)

/-- Python `str.upper()` (per-character ASCII case map, which is what the
scripts exercise). -/
def pyUpper (s : String) : String := String.mk (s.data.map Char.toUpper)

/-- Python `str.lower()`. -/
def pyLower (s : String) : String := String.mk (s.data.map Char.toLower)

/-- A JSON scalar as the scripts see it after decoding: a string, an
integer, or JSON null.  (The fields the scripts read are of these shapes.) -/
inductive PyV where
  | str (s : String)
  | int (n : Int)
  | null
deriving DecidableEq

/-- Python `str(v)` on the scalars above. -/
def pyToString : PyV → String
  | .str s => s
  | .int n => toString n
  | .null => "None"

/-- Python truthiness of a fetched field: `None`, `""` and `0` are falsy.
A missing key (`dict.get` returning `None`) is the `none` case. -/
def pyTruthy : Option PyV → Bool
  | none => false
  | some (.str s) => s ≠ ""
  | some (.int n) => n ≠ 0
  | some .null => false

/-- Truthiness of an optional string field of a normalized record. -/
def truthyS : Option String → Bool
  | none => false
  | some s => s ≠ ""

/-- Code-point lexicographic comparison, Python's `<` on strings. -/
def pyLtChars : List Char → List Char → Bool
  | [], [] => false
  | [], _ :: _ => true
  | _ :: _, [] => false
  | a :: as, b :: bs =>
      if a.toNat < b.toNat then true
      else if b.toNat < a.toNat then false
      else pyLtChars as bs

/-- Python `a < b` on strings. -/
def pyStrLt (a b : String) : Bool := pyLtChars a.data b.data

/-- Digit run of a Python integer literal: digits with single interior
underscores (`int("1_2") = 12`), rejecting leading/trailing/doubled ones. -/
def pyDigitsGo (acc : Nat) : List Char → Option Nat
  | [] => some acc
  | '_' :: d :: rest =>
      if d.isDigit then pyDigitsGo (acc * 10 + (d.toNat - 48)) rest else none
  | d :: rest =>
      if d.isDigit then pyDigitsGo (acc * 10 + (d.toNat - 48)) rest else none

/-- Nonempty digit run (first char must be a digit). -/
def pyDigits : List Char → Option Nat
  | [] => none
  | d :: rest =>
      if d.isDigit then pyDigitsGo (d.toNat - 48) rest else none

/-- Python `int(s)` on an already-stripped string, `none` on `ValueError`. -/
def pyInt (s : String) : Option Int :=
  match s.data with
  | '+' :: rest => (pyDigits rest).map Int.ofNat
  | '-' :: rest => (pyDigits rest).map (fun n => -(Int.ofNat n))
  | l => (pyDigits l).map Int.ofNat

/-! ## Citation merging (`ingest_nemaguild.py`, `merge_citations`)

The separator regex is `\s*(?:\|\||;)\s*`: optional whitespace, then `||`
or `;`, then optional whitespace.  `pySepAt` recognises a match anchored at
the current position and returns the remainder after the match. -/

/-- Dropping a while-prefix never lengthens a list. -/
theorem lenDropWhile (p : α → Bool) (l : List α) :
    (l.dropWhile p).length ≤ l.length :=
  (List.dropWhile_sublist p).length_le

/-- Try to match the separator regex at the head of `cs`: optional
whitespace, then `||` or `;`, then trailing optional whitespace. -/
def pySepAt (cs : List Char) : Option (List Char) :=
  let rest := cs.dropWhile pyWs
  if rest.take 2 = ['|', '|'] then some ((rest.drop 2).dropWhile pyWs)
  else if rest.take 1 = [';'] then some ((rest.drop 1).dropWhile pyWs)
  else none

/-- The separator consumes at least one character. -/
theorem pySepAt_shrink {cs r : List Char} (h : pySepAt cs = some r) :
    r.length < cs.length := by
  have hd : (cs.dropWhile pyWs).length ≤ cs.length := lenDropWhile pyWs cs
  unfold pySepAt at h
  simp only at h
  split at h
  · rename_i h2
    have hlen : 2 ≤ (cs.dropWhile pyWs).length := by
      have := congrArg List.length h2
      simp only [List.length_take, List.length_cons, List.length_nil] at this
      omega
    have h3 : ((cs.dropWhile pyWs).drop 2).length = (cs.dropWhile pyWs).length - 2 := by
      simp [List.length_drop]
    have h4 := lenDropWhile pyWs ((cs.dropWhile pyWs).drop 2)
    simp only [Option.some.injEq] at h
    subst h
    omega
  · split at h
    · rename_i h2
      have hlen : 1 ≤ (cs.dropWhile pyWs).length := by
        have := congrArg List.length h2
        simp only [List.length_take, List.length_cons, List.length_nil] at this
        omega
      have h3 : ((cs.dropWhile pyWs).drop 1).length = (cs.dropWhile pyWs).length - 1 := by
        simp [List.length_drop]
      have h4 := lenDropWhile pyWs ((cs.dropWhile pyWs).drop 1)
      simp only [Option.some.injEq] at h
      subst h
      omega
    · exact absurd h (by simp)

/-- `re.split(r'\s*(?:\|\||;)\s*', s)`, leftmost and non-overlapping,
written with explicit fuel (instantiated with the text length) so that it
computes by kernel reduction.  `field` accumulates the current field in
reverse. -/
def pySplitF (field : List Char) : Nat → List Char → List (List Char)
  | _, [] => [field.reverse]
  | 0, l => [field.reverse ++ l]
  | fuel + 1, c :: rest =>
      match pySepAt (c :: rest) with
      | some r => field.reverse :: pySplitF [] fuel r
      | none => pySplitF (c :: field) fuel rest

/-- `re.split(r'\s*(?:\|\||;)\s*', s)`. -/
def pySplit (s : String) : List String :=
  (pySplitF [] s.data.length s.data).map String.mk

/-! ## Raw records and normalization
(`normalize_record` in `ingest_funguild.py` and `ingest_nemaguild.py`)

A raw record is the string-keyed mapping the scripts read; we keep exactly
the keys they access.  `none` models a missing key (`dict.get` returning
`None`); `some .null` models an explicit JSON null (indistinguishable from
a missing key through `dict.get`, and treated identically by the code). -/

structure RawRec where
  guid : Option PyV := none
  taxon : Option PyV := none
  mbNumber : Option PyV := none
  taxonomicLevel : Option PyV := none
  trophicMode : Option PyV := none
  guild : Option PyV := none
  confidenceRanking : Option PyV := none
  growthForm : Option PyV := none
  trait : Option PyV := none
  notes : Option PyV := none
  citationSource : Option PyV := none
deriving DecidableEq

/-- The inner helper `clean_str`: `None` stays null, anything else is
stringified and stripped, and a (case-insensitive) `"NULL"` becomes null. -/
def clean_str : Option PyV → Option String
  | none => none
  | some .null => none
  | some v =>
      let s := pyStrip (pyToString v)
      if pyUpper s = "NULL" then none else some s

/-- A normalized guid-keyed (FUNGuild) record — also the shape of a row of
the `funguild` table.  The verbatim raw payload (`raw_json` in the code,
a JSON serialization) is modelled by carrying the raw record itself. -/
structure FRec where
  guid : Option String
  taxon : Option String
  mbNumber : Option String
  taxonomicLevel : Option Int
  trophicMode : Option String
  guild : Option String
  confidenceRanking : Option String
  growthForm : Option String
  trait : Option String
  notes : Option String
  citationSource : Option String
  raw_json : RawRec
  ingested_at : String
deriving DecidableEq

/-- A normalized taxon-keyed (NemaGuild) record — also the shape of a row
of the `nemaguild` table. -/
structure NRec where
  taxon : String
  guid : Option String
  mbNumber : Option String
  taxonomicLevel : Option Int
  trophicMode : Option String
  guild : Option String
  confidenceRanking : Option String
  growthForm : Option String
  trait : Option String
  notes : Option String
  citationSource : Option String
  raw_json : RawRec
  ingested_at : String
deriving DecidableEq

/-- `isinstance(v, str) and not v.strip()`. -/
def pyBlankStr : PyV → Bool
  | .str s => pyStrip s = ""
  | _ => false

/-- `normalize_record` of `ingest_funguild.py`.  The record is dropped when
the required `guid` is missing, falsy, or a blank string; `guid` itself is
only stringified and stripped, every other text field goes through
`clean_str`, and the level field is cast to an integer (null on failure). -/
def fg_normalize (rec : RawRec) (now : String) : Option FRec :=
  match rec.guid with
  | none => none
  | some g =>
      if !pyTruthy (some g) then none
      else if pyBlankStr g then none
      else some {
        guid := some (pyStrip (pyToString g))
        taxon := clean_str rec.taxon
        mbNumber := clean_str rec.mbNumber
        taxonomicLevel := (clean_str rec.taxonomicLevel).bind pyInt
        trophicMode := clean_str rec.trophicMode
        guild := clean_str rec.guild
        confidenceRanking := clean_str rec.confidenceRanking
        growthForm := clean_str rec.growthForm
        trait := clean_str rec.trait
        notes := clean_str rec.notes
        citationSource := clean_str rec.citationSource
        raw_json := rec
        ingested_at := now }

/-- `normalize_record` of `ingest_nemaguild.py`.  The required key is the
cleaned `taxon`; a missing, blank or `"NULL"` taxon drops the record. -/
def nm_normalize (rec : RawRec) (now : String) : Option NRec :=
  match clean_str rec.taxon with
  | none => none
  | some t =>
      if t = "" then none
      else some {
        taxon := t
        guid := clean_str rec.guid
        mbNumber := clean_str rec.mbNumber
        taxonomicLevel := (clean_str rec.taxonomicLevel).bind pyInt
        trophicMode := clean_str rec.trophicMode
        guild := clean_str rec.guild
        confidenceRanking := clean_str rec.confidenceRanking
        growthForm := clean_str rec.growthForm
        trait := clean_str rec.trait
        notes := clean_str rec.notes
        citationSource := clean_str rec.citationSource
        raw_json := rec
        ingested_at := now }

/-! ## Taxonomy crawler (`ingest_catalogueoflife.py`)

The crawler writes into the `funguild` table, whose repository schema
declares `guid TEXT PRIMARY KEY`; an INSERT with an already-present guid
therefore raises (`IntegrityError`), modelled as an error.  The network
fetch is the external collaborator `api : String → List Child` (`get_id_level_base`,
which returns a list of children or an empty list on failure). -/

/-- `RANK_LEVEL_MAP`, in insertion order. -/
def RANK_LEVEL_MAP : List (String × Int) :=
  [("kingdom", 0), ("phylum", 3), ("class", 5), ("order", 7),
   ("family", 9), ("genus", 13), ("species", 20)]

/-- `RANK_LEVEL_MAP.get(rank)`. -/
def rankLevel (r : String) : Option Int :=
  (RANK_LEVEL_MAP.find? (fun p => decide (p.1 = r))).map (fun p => p.2)

def ANCHOR_FUNGI_GUID : String := "F_0000000000_ANCHOR_FUNGI"

/-- A child object of a children listing: `name`, `rank`, `id` (each may be
absent or JSON null, which `dict.get` conflates). -/
structure Child where
  name : Option String := none
  rank : Option String := none
  id : Option String := none
deriving DecidableEq

/-- Python `str(id)` as interpolated into the fetch URL and the minted
guid (an f-string prints `None` for a missing id). -/
def pyIdStr (i : Option String) : String := i.getD "None"

/-- A row of the `funguild` table as the crawler reads and writes it.  The
raw payload column holds the verbatim child object. -/
structure Row where
  guid : String
  taxon : String
  taxonomicLevel : Int
  parent_guid : String
  raw_json : Child
  ingested_at : Nat
deriving DecidableEq

/-- The crawler's store: rows in insertion order plus a logical clock
standing for `datetime.now` at each insert. -/
structure CrawlSt where
  rows : List Row
  clock : Nat
deriving DecidableEq

deriving instance DecidableEq for Except

/-- `upsert_node`: look the node up by `(taxon, taxonomicLevel)`; if found,
refresh `parent_guid` (an UPDATE keyed by guid) and return the stored guid;
otherwise mint `GBIF_<RANK_UPPER>_<id>` and insert — the insert errors when
the minted guid is already present (primary-key violation). -/
def upsert_node (st : CrawlSt) (taxon : String) (level : Int) (parent_guid : String)
    (api_id : Option String) (rank : String) (raw : Child) :
    Except String (String × CrawlSt) :=
  match st.rows.find? (fun r =>
      decide (r.taxon = taxon) && decide (r.taxonomicLevel = level)) with
  | some row =>
      .ok (row.guid,
        { st with rows := st.rows.map (fun r =>
            if r.guid = row.guid then { r with parent_guid := parent_guid } else r) })
  | none =>
      let new_guid := "GBIF_" ++ pyUpper rank ++ "_" ++ pyIdStr api_id
      if st.rows.any (fun r => decide (r.guid = new_guid)) then .error "IntegrityError"
      else
        let newRow : Row := ⟨new_guid, taxon, level, parent_guid, raw, st.clock⟩
        .ok (new_guid, { rows := st.rows ++ [newRow], clock := st.clock + 1 })

/-- The per-child loop body of `ingest_recursive`, abstracted over the
recursive call used for a child's subtree: skip a nameless, blank or
`"Not assigned"` child; raise on a missing rank (`rank.lower()` on `None`
is an `AttributeError`); skip an unmapped rank; otherwise upsert and, below
a non-species rank, recurse into the child. -/
def ingestChildrenGo (recurse : String → String → CrawlSt → Except String CrawlSt) :
    List Child → String → CrawlSt → Except String CrawlSt
  | [], _, st => .ok st
  | c :: rest, parent_guid, st =>
      match c.name with
      | none => ingestChildrenGo recurse rest parent_guid st
      | some s =>
          if s = "Not assigned" ∨ s = "" then ingestChildrenGo recurse rest parent_guid st
          else
            match c.rank with
            | none => .error "AttributeError"
            | some rank =>
                match rankLevel (pyLower rank) with
                | none => ingestChildrenGo recurse rest parent_guid st
                | some level =>
                    match upsert_node st s level parent_guid c.id rank c with
                    | .error e => .error e
                    | .ok (guid, st1) =>
                        if pyLower rank ≠ "species" then
                          match recurse (pyIdStr c.id) guid st1 with
                          | .error e => .error e
                          | .ok st2 => ingestChildrenGo recurse rest parent_guid st2
                        else ingestChildrenGo recurse rest parent_guid st1

/-- `ingest_recursive`, with fuel `len(ranks) - current_rank_index`: fuel 0
is the `current_rank_index >= len(ranks)` immediate return; otherwise fetch
the children and process them (an empty listing returns unchanged). -/
def ingestRecF (api : String → List Child) :
    Nat → String → String → CrawlSt → Except String CrawlSt
  | 0, _, _, st => .ok st
  | n + 1, api_id, parent_guid, st =>
      let children := api api_id
      if children.isEmpty then .ok st
      else ingestChildrenGo (ingestRecF api n) children parent_guid st

/-- `ingest_recursive` phrased with the code's increasing rank index. -/
def ingest_recursive (api : String → List Child) (current_rank_index : Nat)
    (api_id parent_guid : String) (st : CrawlSt) : Except String CrawlSt :=
  ingestRecF api (RANK_LEVEL_MAP.length - current_rank_index) api_id parent_guid st

/-- Everything of a row except its parent link. -/
def rowSkel (r : Row) : String × String × Int × Child × Nat :=
  (r.guid, r.taxon, r.taxonomicLevel, r.raw_json, r.ingested_at)

/-- The store's skeleton: all columns but the parent link, in row order. -/
def skel (rows : List Row) : List (String × String × Int × Child × Nat) :=
  rows.map rowSkel

/-- The natural key of a row. -/
def rowKey (r : Row) : String × Int := (r.taxon, r.taxonomicLevel)

/-- Whether the store has a row with the given natural key. -/
def hasRowKey (rows : List Row) (k : String × Int) : Bool :=
  rows.any (fun r => decide (rowKey r = k))

/-- The guid of the first row with the given natural key. -/
def findGuid (rows : List Row) (k : String × Int) : Option String :=
  (rows.find? (fun r => decide (rowKey r = k))).map (fun r => r.guid)

/-- The parent link of the first row with the given natural key. -/
def parentOfKey (rows : List Row) (k : String × Int) : Option String :=
  (rows.find? (fun r => decide (rowKey r = k))).map (fun r => r.parent_guid)

/-- The primary-key invariant of the store. -/
def guidUnique (rows : List Row) : Prop := (rows.map (fun r => r.guid)).Nodup

/-- The visit plan of a crawl: the (name, level) keys the crawl upserts, in
order, each with the key of its parent node (`none` when the parent is the
call's own parent argument).  A pure function of the external source — the
traversal never consults the store. -/
def reparentVisits (kc : String × Int)
    (l : List ((String × Int) × Option (String × Int))) :
    List ((String × Int) × Option (String × Int)) :=
  l.map (fun p => (p.1, some (p.2.getD kc)))

/-- Visit plan of one children listing, given the subtree plans. -/
def visitsGo (vrec : String → List ((String × Int) × Option (String × Int))) :
    List Child → List ((String × Int) × Option (String × Int))
  | [] => []
  | c :: rest =>
      match c.name with
      | none => visitsGo vrec rest
      | some s =>
          if s = "Not assigned" ∨ s = "" then visitsGo vrec rest
          else
            match c.rank with
            | none => visitsGo vrec rest
            | some rank =>
                match rankLevel (pyLower rank) with
                | none => visitsGo vrec rest
                | some level =>
                    ((s, level), none) ::
                      ((if pyLower rank ≠ "species" then
                          reparentVisits (s, level) (vrec (pyIdStr c.id))
                        else []) ++ visitsGo vrec rest)

/-- Visit plan of a crawl. -/
def visitsRec (api : String → List Child) :
    Nat → String → List ((String × Int) × Option (String × Int))
  | 0, _ => []
  | n + 1, api_id =>
      let children := api api_id
      if children.isEmpty then [] else visitsGo (visitsRec api n) children

/-- Depth of the nested `ingest_recursive` calls a children listing causes,
given the subtree depths. -/
def crawlDepthGo (d : String → Nat) : List Child → Nat
  | [] => 0
  | c :: rest =>
      match c.name with
      | none => crawlDepthGo d rest
      | some s =>
          if s = "Not assigned" ∨ s = "" then crawlDepthGo d rest
          else
            match c.rank with
            | none => crawlDepthGo d rest
            | some rank =>
                match rankLevel (pyLower rank) with
                | none => crawlDepthGo d rest
                | some _ =>
                    max (if pyLower rank ≠ "species" then 1 + d (pyIdStr c.id) else 0)
                      (crawlDepthGo d rest)

/-- Depth of nested recursive calls below a crawl call at the given fuel. -/
def crawlDepth (api : String → List Child) : Nat → String → Nat
  | 0, _ => 0
  | n + 1, api_id =>
      let children := api api_id
      if children.isEmpty then 0 else crawlDepthGo (crawlDepth api n) children

/-- The specification's phylum/class example source: a phylum whose
children listing holds a `"Not assigned"` class and one real class. -/
def apiScenario : String → List Child := fun s =>
  if s = "F" then [{ name := some "Ascomycota", rank := some "phylum", id := some "1" }]
  else if s = "1" then
    [{ name := some "Not assigned", rank := some "class", id := some "2" },
     { name := some "Eurotiomycetes", rank := some "class", id := some "3" }]
  else []

/-- A source whose single child has no rank field at all. -/
def apiNoRank : String → List Child := fun s =>
  if s = "F" then [{ name := some "X", rank := none, id := some "9" }] else []

/-! ## Response interpreter
(`fetch_data` / `extract_json_array` in both flat-dataset scripts)

The body is a list of characters.  `json.loads` is the external stdlib
collaborator, abstracted as `loads : List Char → Option J` together with
`isList : J → Bool` (`isinstance(data, list)`); the only fact used about it
is that `json.loads("")` raises, i.e. `loads [] = none`. -/

/-- Python `text[a : b]` (clamping slice). -/
def pySlice (cs : List Char) (a b : Nat) : List Char := (cs.drop a).take (b - a)

/-- All positions of `ch` in `cs`, ascending (`re.finditer`). -/
def charPositions (ch : Char) (cs : List Char) : List Nat :=
  (List.range cs.length).filter (fun i => decide (cs.get? i = some ch))

/-- Python `text.find(ch)`: first position, `none` standing for `-1`. -/
def pyFind (ch : Char) (cs : List Char) : Option Nat := (charPositions ch cs).head?

/-- Python `text.rfind(ch)`. -/
def pyRfind (ch : Char) (cs : List Char) : Option Nat := (charPositions ch cs).getLast?

/-- The descending retry loop of `extract_json_array`
(`matches.sort(reverse=True)`; `break` once the candidate precedes the
first `[`). -/
def extractLoop {J : Type} (loads : List Char → Option J) (isList : J → Bool)
    (text : List Char) (first_open : Nat) : List Nat → Option J
  | [] => none
  | e :: es =>
      if e < first_open then none
      else
        match loads (pySlice text first_open (e + 1)) with
        | some d =>
            if isList d then some d else extractLoop loads isList text first_open es
        | none => extractLoop loads isList text first_open es

/-- `extract_json_array` of `ingest_nemaguild.py`: try the substring from
the first `[` to the last `]`, then shrink from the back over every `]`
position in descending order. -/
def extract_json_array {J : Type} (loads : List Char → Option J) (isList : J → Bool)
    (text : List Char) : Option J :=
  match pyFind '[' text with
  | none => none
  | some first_open =>
      match pyRfind ']' text with
      | none => none
      | some last_close =>
          if last_close < first_open then none
          else
            match loads (pySlice text first_open (last_close + 1)) with
            | some d =>
                if isList d then some d
                else extractLoop loads isList text first_open
                  ((charPositions ']' text).reverse)
            | none =>
                extractLoop loads isList text first_open
                  ((charPositions ']' text).reverse)

/-- `extract_json_array` of `ingest_funguild.py`: the same logic behind a
redundant pre-check that some `[` occurs (`start_candidates`). -/
def extract_json_array_fg {J : Type} (loads : List Char → Option J) (isList : J → Bool)
    (text : List Char) : Option J :=
  if (charPositions '[' text).isEmpty then none
  else extract_json_array loads isList text

/-- The response interpretation of `fetch_data` (identical in both
scripts): strict parse of the whole body first, returned when it is a list;
otherwise (non-list result or a parse error) fall back to extraction. -/
def fetch_interpret {J : Type} (loads : List Char → Option J) (isList : J → Bool)
    (text : List Char) : Option J :=
  match loads text with
  | some d => if isList d then some d else extract_json_array loads isList text
  | none => extract_json_array loads isList text

/-- Modelled from the spec (§4.1, step 3): enumerate every `]` position in
descending order and attempt the substring from the first `[` to each
candidate, returning the first successful list result. -/
def specStep3 {J : Type} (loads : List Char → Option J) (isList : J → Bool)
    (text : List Char) (first_open : Nat) : List Nat → Option J
  | [] => none
  | e :: es =>
      match loads (pySlice text first_open (e + 1)) with
      | some d =>
          if isList d then some d else specStep3 loads isList text first_open es
      | none => specStep3 loads isList text first_open es

/-- Modelled from the spec (§4.1, steps 2–4): a body with no `[` fails
immediately; otherwise try the inclusive substring from the first `[` to
the last `]`, then step 3, then fail. -/
def specExtract {J : Type} (loads : List Char → Option J) (isList : J → Bool)
    (text : List Char) : Option J :=
  match pyFind '[' text with
  | none => none
  | some first_open =>
      let try2 :=
        match pyRfind ']' text with
        | none => none
        | some last_close =>
            match loads (pySlice text first_open (last_close + 1)) with
            | some d => if isList d then some d else none
            | none => none
      match try2 with
      | some d => some d
      | none =>
          specStep3 loads isList text first_open ((charPositions ']' text).reverse)

/-- Modelled from the spec (§4.1, the four-step algorithm): strict parse of
the whole body returned when a list, then the bracket heuristics. -/
def specInterpret {J : Type} (loads : List Char → Option J) (isList : J → Bool)
    (text : List Char) : Option J :=
  match loads text with
  | some d => if isList d then some d else specExtract loads isList text
  | none => specExtract loads isList text

/-- A toy parser used to witness the interpreter equivalence: recognises
exactly the text `[]`. -/
def loadsToy : List Char → Option Nat := fun cs => if cs = ['[', ']'] then some 0 else none

/-- The specification's sentinel condition on a raw field: present, and its
trimmed string form case-insensitively equals `"NULL"`. -/
def isNullForm : Option PyV → Bool
  | none => false
  | some v => pyUpper (pyStrip (pyToString v)) = "NULL"

/-- The specification's "absent or blank after trimming" condition on a
natural-key field (a JSON null is counted as absent, as `dict.get` cannot
distinguish the two). -/
def keyAbsentOrBlank : Option PyV → Bool
  | none => true
  | some .null => true
  | some (.str s) => pyStrip s = ""
  | some (.int _) => false

/-! ## Citation merging and duplicate resolution (`ingest_nemaguild.py`) -/

/-- The part-collection loop of `merge_citations`: each truthy citation
string is split on the separator regex. -/
def collectParts (citations : List String) : List String :=
  citations.foldl (fun acc cit => if cit = "" then acc else acc ++ pySplit cit) []

/-- Step of the dedup loop: strip, drop empties, keep first occurrence. -/
def addCit (acc : List String) (c : String) : List String :=
  let c := pyStrip c
  if c ≠ "" ∧ c ∉ acc then acc ++ [c] else acc

/-- The `unique_citations` list built by `merge_citations`. -/
def merge_citations_list (citations : List String) : List String :=
  (collectParts citations).foldl addCit []

/-- `merge_citations`: split on `;`/`||`, strip, dedup preserving
first-seen order, rejoin with a double-pipe separator. -/
def merge_citations (citations : List String) : String :=
  String.intercalate " || " (merge_citations_list citations)

/-- Stable insertion step for a descending sort by `ingested_at`
(Python `sorted(records, key=lambda x: x['ingested_at'], reverse=True)`
is stable: ties keep their original order). -/
def insertDesc (r : NRec) : List NRec → List NRec
  | [] => [r]
  | y :: ys => if pyStrLt y.ingested_at r.ingested_at then r :: y :: ys else y :: insertDesc r ys

/-- Stable sort, most recent `ingested_at` first. -/
def sortDesc (l : List NRec) : List NRec :=
  l.foldl (fun acc r => insertDesc r acc) []

/-- The per-record citation collection of `merge_duplicate_records`. -/
def collectCitations (sorted : List NRec) : List String :=
  sorted.foldl
    (fun acc q => if truthyS q.citationSource then acc ++ [q.citationSource.getD ""] else acc) []

/-- One pass of the field-fill loop: a mergeable field of the merged record
is taken from an older record only when the merged value is falsy and the
older one truthy.  The key list is exactly the code's. -/
def fillFrom (m q : NRec) : NRec :=
  { m with
    guild := if !truthyS m.guild && truthyS q.guild then q.guild else m.guild
    notes := if !truthyS m.notes && truthyS q.notes then q.notes else m.notes
    trait := if !truthyS m.trait && truthyS q.trait then q.trait else m.trait
    confidenceRanking :=
      if !truthyS m.confidenceRanking && truthyS q.confidenceRanking
      then q.confidenceRanking else m.confidenceRanking
    trophicMode :=
      if !truthyS m.trophicMode && truthyS q.trophicMode then q.trophicMode else m.trophicMode
    growthForm :=
      if !truthyS m.growthForm && truthyS q.growthForm then q.growthForm else m.growthForm
    guid := if !truthyS m.guid && truthyS q.guid then q.guid else m.guid
    mbNumber := if !truthyS m.mbNumber && truthyS q.mbNumber then q.mbNumber else m.mbNumber }

/-- `merge_duplicate_records`: keep the most recent record as base, merge
all truthy citation sources, then fill falsy mergeable fields from older
records.  A singleton group is returned unchanged; the empty group (an
`IndexError` in Python) is `none`. -/
def merge_duplicate_records : List NRec → Option NRec
  | [] => none
  | [r] => some r
  | r :: rs =>
      let sorted := sortDesc (r :: rs)
      let base := sorted.headD r
      let citations := collectCitations sorted
      let m1 := if citations.isEmpty then base
                else { base with citationSource := some (merge_citations citations) }
      some ((sorted.drop 1).foldl fillFrom m1)

/-- The citation entries of a stored citation-source field: the
split/strip/dedup view used by `merge_citations`. -/
def citEntries : Option String → List String
  | none => []
  | some s => merge_citations_list [s]

/-- What `merge_duplicate_records` computes on a two-element group once the
base (most recent) record `b` and the older record `o` are identified. -/
def mergePairCore (b o : NRec) : NRec :=
  let citations := collectCitations [b, o]
  let m1 := if citations.isEmpty then b
            else { b with citationSource := some (merge_citations citations) }
  fillFrom m1 o

/-! ## Synchronization sink
(`get_existing_guids` / `upsert_many` in `ingest_funguild.py`,
`get_existing_taxa` / `upsert_many` in `ingest_nemaguild.py`)

The store is a list of rows in insertion order.  `INSERT … ON
CONFLICT(key) DO UPDATE SET …=excluded.…` updates every column of the
conflicting row from the incoming record, which (the key being equal too)
replaces the row wholesale. -/

/-- `range(0, len(l), n)` slicing into chunks of `n`, written with fuel
(instantiated with the list length) for structural recursion. -/
def chunksGo (n : Nat) : Nat → List α → List (List α)
  | _, [] => []
  | 0, l => [l]
  | fuel + 1, l => l.take n :: chunksGo n fuel (l.drop n)

/-- Split a list into chunks of `n`. -/
def chunksOf (n : Nat) (l : List α) : List (List α) := chunksGo n l.length l

/-- Whether a keyed store has a row with the given key value. -/
def keyPresent (key : α → κ) [DecidableEq κ] (db : List α) (k : κ) : Bool :=
  db.any (fun row => decide (key row = k))

/-- One `executemany` step of `INSERT … ON CONFLICT(key) DO UPDATE SET
…=excluded.…`: insert the record, or replace the conflicting row wholesale
(every column is overwritten from the incoming record, and the key column
is equal anyway). -/
def keyedStep (key : α → κ) [DecidableEq κ] (db : List α) (r : α) : List α :=
  if keyPresent key db (key r) then
    db.map (fun row => if key row = key r then r else row)
  else db ++ [r]

/-- Whether the funguild store has a row with the given guid. -/
def fgHasGuid (db : List FRec) (g : String) : Bool :=
  db.any (fun row => decide (row.guid = some g))

/-- Whether the funguild store has a row with the given key value. -/
def fgHasKey (db : List FRec) (k : Option String) : Bool :=
  keyPresent (fun row => row.guid) db k

/-- Order-preserving deduplication (the Python `set` built row by row,
exposed as a list so that its size is its length). -/
def dedupKeepFirst (l : List String) : List String :=
  l.foldl (fun a g => if g ∈ a then a else a ++ [g]) []

/-- `get_existing_guids`: the set of batch guids already present, collected
over key chunks of 900 to respect the backend parameter-count limit. -/
def get_existing_guids (db : List FRec) (guids : List String) : List String :=
  (chunksOf 900 guids).foldl
    (fun acc chunk =>
      (chunk.filter (fun g => fgHasGuid db g)).foldl
        (fun a g => if g ∈ a then a else a ++ [g]) acc)
    []

/-- One `executemany` step of the funguild upsert (conflict key: `guid`). -/
def fgUpsertStep (db : List FRec) (r : FRec) : List FRec :=
  keyedStep (fun row => row.guid) db r

/-- `upsert_many` of `ingest_funguild.py`: report
`(inserted, updated) = (len(records) - len(existing), len(existing))` and
execute the upsert for each record in order. -/
def fg_upsert_many (db : List FRec) (records : List FRec) :
    (Nat × Nat) × List FRec :=
  match records with
  | [] => ((0, 0), db)
  | _ =>
      let guids := records.map (fun r => r.guid.getD "")
      let existing := get_existing_guids db guids
      let updated := existing.length
      let inserted := records.length - updated
      ((inserted, updated), records.foldl fgUpsertStep db)

/-- Insertion into the Python dict of existing rows (later rows with the
same taxon overwrite earlier ones). -/
def dictInsert (d : List (String × NRec)) (k : String) (v : NRec) :
    List (String × NRec) :=
  if d.any (fun p => decide (p.1 = k)) then
    d.map (fun p => if p.1 = k then (k, v) else p)
  else d ++ [(k, v)]

/-- `get_existing_taxa`: the dict of stored rows for the batch taxa,
collected over key chunks of 900. -/
def get_existing_taxa (db : List NRec) (taxa : List String) :
    List (String × NRec) :=
  (chunksOf 900 taxa).foldl
    (fun d chunk =>
      (db.filter (fun row => chunk.contains row.taxon)).foldl
        (fun d row => dictInsert d row.taxon row) d)
    []

/-- Dict lookup. -/
def dictFind (d : List (String × NRec)) (k : String) : Option NRec :=
  (d.find? (fun p => decide (p.1 = k))).map (fun p => p.2)

/-- One `executemany` step of the nemaguild upsert (conflict key: `taxon`). -/
def nmUpsertStep (db : List NRec) (r : NRec) : List NRec :=
  keyedStep (fun row => row.taxon) db r

/-- `upsert_many` of `ingest_nemaguild.py`: each batch record whose taxon
is already stored is merged with the stored row through
`merge_duplicate_records` before the SQL upsert; counters report
`(inserted, updated, merged_citations)`. -/
def nm_upsert_many (db : List NRec) (records : List NRec) :
    (Nat × Nat × Nat) × List NRec :=
  match records with
  | [] => ((0, 0, 0), db)
  | _ =>
      let taxa := records.map (fun r => r.taxon)
      let existing := get_existing_taxa db taxa
      let res := records.foldl
        (fun (st : (Nat × Nat × Nat) × List NRec) rec =>
          match dictFind existing rec.taxon with
          | some e =>
              let merged := (merge_duplicate_records [e, rec]).getD rec
              let mc := if e.citationSource ≠ merged.citationSource then 1 else 0
              ((st.1.1, st.1.2.1 + 1, st.1.2.2 + mc), st.2 ++ [merged])
          | none => ((st.1.1 + 1, st.1.2.1, st.1.2.2), st.2 ++ [rec]))
        ((0, 0, 0), [])
      (res.1, res.2.foldl nmUpsertStep db)

/-- A concrete raw record whose non-key fields carry the `"NULL"`
sentinel, used to witness the normalizer claims. -/
def c4wRec : RawRec :=
  { guid := some (.str "g1"), taxon := some (.str "null"),
    notes := some (.str " NULL ") }

/-- A concrete FUNGuild record with the fields the sink scenarios vary:
guid, citation source, notes, timestamp. -/
def fgRow (g cit nts : Option String) (ts : String) : FRec :=
  { guid := g, taxon := none, mbNumber := none, taxonomicLevel := none, trophicMode := none,
    guild := none, confidenceRanking := none, growthForm := none, trait := none,
    notes := nts, citationSource := cit, raw_json := {}, ingested_at := ts }

/-- A concrete NemaGuild record for the merge scenarios of the
specification (taxon `"Panagrolaimus"`), with the fields the scenarios
vary: timestamp, citation source, taxonomic level, notes. -/
def panRec (ts : String) (cit : Option String) (lvl : Option Int) (nts : Option String) :
    NRec :=
  { taxon := "Panagrolaimus", guid := none, mbNumber := none, taxonomicLevel := lvl,
    trophicMode := none, guild := none, confidenceRanking := none, growthForm := none,
    trait := none, notes := nts, citationSource := cit, raw_json := {}, ingested_at := ts }

/-! ### Observables of a crawl run (for the idempotence claim)

A crawl is characterised against its visit plan (`visitsRec`): which keys
it upserts, in order, and which key each written parent link refers to.
The definitions below extract from a store exactly what a run's outcome
depends on. -/

/-- A visit plan: upserted keys in order, each with the key of its parent
node (`none` when the parent is the call's own `parent_guid` argument). -/
abbrev Plan := List ((String × Int) × Option (String × Int))

/-- The keys a plan visits. -/
def planKeys (vs : Plan) : List (String × Int) := vs.map (fun v => v.1)

/-- The parent keys a plan's visits refer to. -/
def parentKeys (vs : Plan) : List (String × Int) := vs.filterMap (fun v => v.2)

/-- The parent-link string a visit writes: the caller's `parent_guid` for a
top-level visit, the stored guid of the parent key otherwise. -/
def resolveVal (rows : List Row) (pg : String) : Option (String × Int) → String
  | none => pg
  | some kp => (findGuid rows kp).getD ""

/-- The parent reference of the last visit of `k` in the plan, if any. -/
def lastVis (vs : Plan) (k : String × Int) : Option (Option (String × Int)) :=
  ((vs.filter (fun v => decide (v.1 = k))).map (fun v => v.2)).getLast?

/-- Whether `r` is the row `upsert_node` finds for its key: the first row
of the store with that natural key. -/
def isFirstOfKey (rows : List Row) (r : Row) : Prop :=
  findGuid rows (rowKey r) = some r.guid

/-- Post-condition of a successful run over plan `vs` from `s` to `t`:
the skeleton grows by appending only; guid uniqueness holds; every key the
plan visits or refers to is present; the clock advances by the number of
inserted rows; a row that is not the found row of a visited key is
untouched; and the found row of a visited key carries the parent link of
its last visit. -/
def runPost (pg : String) (vs : Plan) (s t : CrawlSt) : Prop :=
  skel s.rows <+: skel t.rows ∧
  guidUnique t.rows ∧
  (∀ k ∈ planKeys vs ++ parentKeys vs, hasRowKey t.rows k = true) ∧
  t.clock + s.rows.length = s.clock + t.rows.length ∧
  (∀ i r, t.rows.get? i = some r →
    (lastVis vs (rowKey r) = none ∨ ¬ isFirstOfKey t.rows r) →
    s.rows.get? i = some r) ∧
  (∀ i r v, t.rows.get? i = some r → lastVis vs (rowKey r) = some v →
    isFirstOfKey t.rows r → r.parent_guid = resolveVal t.rows pg v)

/-- The natural key of a skeleton entry. -/
def skKey (e : String × String × Int × Child × Nat) : String × Int :=
  (e.2.1, e.2.2.1)

/-- `findGuid` through the skeleton. -/
def skFindGuid (l : List (String × String × Int × Child × Nat))
    (k : String × Int) : Option String :=
  (l.find? (fun e => decide (skKey e = k))).map (fun e => e.1)

/-- `hasRowKey` through the skeleton. -/
def skHasKey (l : List (String × String × Int × Child × Nat))
    (k : String × Int) : Bool :=
  l.any (fun e => decide (skKey e = k))

/-- The store after crawling the specification's phylum/class source from
an empty store: the phylum node and the one real class node. -/
def c2St1 : CrawlSt :=
  { rows :=
      [{ guid := "GBIF_PHYLUM_1", taxon := "Ascomycota", taxonomicLevel := 3,
         parent_guid := ANCHOR_FUNGI_GUID,
         raw_json := { name := some "Ascomycota", rank := some "phylum", id := some "1" },
         ingested_at := 0 },
       { guid := "GBIF_CLASS_3", taxon := "Eurotiomycetes", taxonomicLevel := 5,
         parent_guid := "GBIF_PHYLUM_1",
         raw_json := { name := some "Eurotiomycetes", rank := some "class", id := some "3" },
         ingested_at := 1 }],
    clock := 2 }

/-! # Lemmas and claim theorems -/

/-! ## Membership lemmas for citation merging -/

theorem mem_addCit {acc : List String} {x c : String} :
    c ∈ addCit acc x ↔ c ∈ acc ∨ (c = pyStrip x ∧ c ≠ "") := by
  unfold addCit
  dsimp only
  split
  · rename_i h
    simp only [List.mem_append, List.mem_singleton]
    constructor
    · rintro (h1 | rfl)
      · exact Or.inl h1
      · exact Or.inr ⟨rfl, h.1⟩
    · rintro (h1 | ⟨rfl, _⟩)
      · exact Or.inl h1
      · exact Or.inr rfl
  · rename_i h
    rw [not_and_or, not_not] at h
    constructor
    · exact Or.inl
    · rintro (h1 | ⟨rfl, hne⟩)
      · exact h1
      · rcases h with h | h
        · exact absurd h hne
        · exact not_not.mp h

theorem mem_foldl_addCit {l : List String} {acc : List String} {c : String} :
    c ∈ l.foldl addCit acc ↔ c ∈ acc ∨ (c ≠ "" ∧ ∃ x ∈ l, pyStrip x = c) := by
  induction l generalizing acc with
  | nil => simp
  | cons x xs ih =>
      simp only [List.foldl_cons, ih, mem_addCit, List.mem_cons]
      constructor
      · rintro ((h | ⟨rfl, hne⟩) | ⟨hne, y, hy, rfl⟩)
        · exact Or.inl h
        · exact Or.inr ⟨hne, x, Or.inl rfl, rfl⟩
        · exact Or.inr ⟨hne, y, Or.inr hy, rfl⟩
      · rintro (h | ⟨hne, y, (rfl | hy), rfl⟩)
        · exact Or.inl (Or.inl h)
        · exact Or.inl (Or.inr ⟨rfl, hne⟩)
        · exact Or.inr ⟨hne, y, hy, rfl⟩

theorem mem_merge_citations_list {cits : List String} {c : String} :
    c ∈ merge_citations_list cits ↔
      c ≠ "" ∧ ∃ x ∈ collectParts cits, pyStrip x = c := by
  unfold merge_citations_list
  rw [mem_foldl_addCit]
  simp

theorem mem_collectParts {cits : List String} {x : String} :
    x ∈ collectParts cits ↔ ∃ cit ∈ cits, cit ≠ "" ∧ x ∈ pySplit cit := by
  have main : ∀ (l : List String) (acc : List String),
      x ∈ l.foldl (fun acc cit => if cit = "" then acc else acc ++ pySplit cit) acc ↔
        x ∈ acc ∨ ∃ cit ∈ l, cit ≠ "" ∧ x ∈ pySplit cit := by
    intro l
    induction l with
    | nil => simp
    | cons a as ih =>
        intro acc
        simp only [List.foldl_cons, ih, List.mem_cons]
        split
        · rename_i ha
          subst ha
          constructor
          · rintro (h | ⟨cit, hc, hne, hx⟩)
            · exact Or.inl h
            · exact Or.inr ⟨cit, Or.inr hc, hne, hx⟩
          · rintro (h | ⟨cit, (rfl | hc), hne, hx⟩)
            · exact Or.inl h
            · exact absurd rfl hne
            · exact Or.inr ⟨cit, hc, hne, hx⟩
        · rename_i ha
          simp only [List.mem_append]
          constructor
          · rintro (⟨h | h⟩ | ⟨cit, hc, hne, hx⟩)
            · exact Or.inl h
            · exact Or.inr ⟨a, Or.inl rfl, ha, h⟩
            · exact Or.inr ⟨cit, Or.inr hc, hne, hx⟩
          · rintro (h | ⟨cit, (rfl | hc), hne, hx⟩)
            · exact Or.inl (Or.inl h)
            · exact Or.inl (Or.inr hx)
            · exact Or.inr ⟨cit, hc, hne, hx⟩
  unfold collectParts
  rw [main cits []]
  simp

/-! ## Structural lemmas for duplicate resolution -/

theorem mem_insertDesc {r a : NRec} {l : List NRec} :
    a ∈ insertDesc r l ↔ a = r ∨ a ∈ l := by
  induction l with
  | nil => simp [insertDesc]
  | cons y ys ih =>
      unfold insertDesc
      split
      · simp [List.mem_cons]
      · simp only [List.mem_cons, ih]
        tauto

theorem mem_sortDesc {a : NRec} {l : List NRec} : a ∈ sortDesc l ↔ a ∈ l := by
  have main : ∀ (l acc : List NRec),
      a ∈ l.foldl (fun acc r => insertDesc r acc) acc ↔ a ∈ acc ∨ a ∈ l := by
    intro l
    induction l with
    | nil => simp
    | cons x xs ih =>
        intro acc
        simp only [List.foldl_cons, ih, mem_insertDesc, List.mem_cons]
        tauto
  unfold sortDesc
  rw [main]
  simp

theorem sortDesc_pair (e r : NRec) :
    sortDesc [e, r] = if pyStrLt e.ingested_at r.ingested_at then [r, e] else [e, r] := by
  simp only [sortDesc, List.foldl_cons, List.foldl_nil, insertDesc]

theorem collectCitations_go {l : List NRec} {acc : List String}
    (h : ∀ q ∈ l, ¬ truthyS q.citationSource) :
    l.foldl
      (fun acc q =>
        if truthyS q.citationSource then acc ++ [q.citationSource.getD ""] else acc) acc
      = acc := by
  induction l generalizing acc with
  | nil => rfl
  | cons x xs ih =>
      simp only [List.foldl_cons]
      rw [if_neg (h x (List.mem_cons_self x xs))]
      exact ih fun q hq => h q (List.mem_cons_of_mem x hq)

theorem collectCitations_eq_nil {l : List NRec}
    (h : ∀ q ∈ l, ¬ truthyS q.citationSource) : collectCitations l = [] :=
  collectCitations_go h

theorem foldl_acc_mem (l : List NRec) (acc : List String) {c : String} (hc : c ∈ acc) :
    c ∈ l.foldl
      (fun acc r =>
        if truthyS r.citationSource then acc ++ [r.citationSource.getD ""] else acc) acc := by
  induction l generalizing acc with
  | nil => exact hc
  | cons x xs ih =>
      simp only [List.foldl_cons]
      split
      · exact ih _ (List.mem_append_left _ hc)
      · exact ih _ hc

theorem mem_collectCitations {l : List NRec} {q : NRec}
    (hq : q ∈ l) (ht : truthyS q.citationSource) :
    q.citationSource.getD "" ∈ collectCitations l := by
  have main : ∀ (l : List NRec) (acc : List String), q ∈ l →
      q.citationSource.getD "" ∈
        l.foldl
          (fun acc r =>
            if truthyS r.citationSource then acc ++ [r.citationSource.getD ""] else acc)
          acc := by
    intro l
    induction l with
    | nil => intro acc h; cases h
    | cons x xs ih =>
        intro acc hmem
        rcases List.mem_cons.mp hmem with rfl | hmem
        · simp only [List.foldl_cons, if_pos ht]
          have hacc : q.citationSource.getD "" ∈ acc ++ [q.citationSource.getD ""] := by simp
          exact foldl_acc_mem xs _ hacc
        · simp only [List.foldl_cons]
          exact ih _ hmem
  exact main l [] hq

/-! ## Pair-merge characterization -/

theorem mergePair_cases (e r : NRec) :
    merge_duplicate_records [e, r] =
      some (if pyStrLt e.ingested_at r.ingested_at then mergePairCore r e
            else mergePairCore e r) := by
  unfold merge_duplicate_records
  dsimp only
  rw [sortDesc_pair]
  split
  · rfl
  · rfl

theorem mergePairCore_citationSource (b o : NRec) :
    (mergePairCore b o).citationSource =
      if (collectCitations [b, o]).isEmpty then b.citationSource
      else some (merge_citations (collectCitations [b, o])) := by
  unfold mergePairCore fillFrom
  dsimp only
  split <;> rfl

theorem mergePairCore_taxonomicLevel (b o : NRec) :
    (mergePairCore b o).taxonomicLevel = b.taxonomicLevel := by
  unfold mergePairCore fillFrom
  dsimp only
  split <;> rfl

theorem mergePairCore_taxon (b o : NRec) :
    (mergePairCore b o).taxon = b.taxon := by
  unfold mergePairCore fillFrom
  dsimp only
  split <;> rfl

theorem mergePairCore_guild (b o : NRec) :
    (mergePairCore b o).guild =
      if !truthyS b.guild && truthyS o.guild then o.guild else b.guild := by
  unfold mergePairCore fillFrom
  dsimp only
  split <;> rfl

theorem mergePairCore_notes (b o : NRec) :
    (mergePairCore b o).notes =
      if !truthyS b.notes && truthyS o.notes then o.notes else b.notes := by
  unfold mergePairCore fillFrom
  dsimp only
  split <;> rfl

theorem mergePairCore_trait (b o : NRec) :
    (mergePairCore b o).trait =
      if !truthyS b.trait && truthyS o.trait then o.trait else b.trait := by
  unfold mergePairCore fillFrom
  dsimp only
  split <;> rfl

theorem mergePairCore_confidenceRanking (b o : NRec) :
    (mergePairCore b o).confidenceRanking =
      if !truthyS b.confidenceRanking && truthyS o.confidenceRanking
      then o.confidenceRanking else b.confidenceRanking := by
  unfold mergePairCore fillFrom
  dsimp only
  split <;> rfl

theorem mergePairCore_trophicMode (b o : NRec) :
    (mergePairCore b o).trophicMode =
      if !truthyS b.trophicMode && truthyS o.trophicMode
      then o.trophicMode else b.trophicMode := by
  unfold mergePairCore fillFrom
  dsimp only
  split <;> rfl

theorem mergePairCore_growthForm (b o : NRec) :
    (mergePairCore b o).growthForm =
      if !truthyS b.growthForm && truthyS o.growthForm
      then o.growthForm else b.growthForm := by
  unfold mergePairCore fillFrom
  dsimp only
  split <;> rfl

theorem mergePairCore_guid (b o : NRec) :
    (mergePairCore b o).guid =
      if !truthyS b.guid && truthyS o.guid then o.guid else b.guid := by
  unfold mergePairCore fillFrom
  dsimp only
  split <;> rfl

theorem mergePairCore_mbNumber (b o : NRec) :
    (mergePairCore b o).mbNumber =
      if !truthyS b.mbNumber && truthyS o.mbNumber then o.mbNumber else b.mbNumber := by
  unfold mergePairCore fillFrom
  dsimp only
  split <;> rfl

/-- A truthy value on either side survives the fill formula. -/
theorem truthy_fill {a b : Option String} (h : truthyS a || truthyS b) :
    truthyS (if !truthyS a && truthyS b then b else a) := by
  cases ha : truthyS a <;> cases hb : truthyS b <;> simp_all

theorem collectParts_blank : collectParts [""] = [] := rfl

theorem collectParts_singleton (s : String) (hs : s ≠ "") :
    collectParts [s] = pySplit s := by
  unfold collectParts
  simp [hs]

theorem foldl_fillFrom_citationSource (l : List NRec) (m : NRec) :
    (l.foldl fillFrom m).citationSource = m.citationSource := by
  induction l generalizing m with
  | nil => rfl
  | cons x xs ih => simpa using ih (fillFrom m x)

theorem headD_mem {l : List α} {d : α} (h : l ≠ []) : l.headD d ∈ l := by
  cases l with
  | nil => exact absurd rfl h
  | cons x xs => simp

/-- Every citation entry of a group member survives `mergePairCore`: the
merged citation string is the join of an entry list containing it. -/
theorem mergePairCore_cit_superset (b o e : NRec) (he : e = b ∨ e = o) (c : String)
    (hc : c ∈ citEntries e.citationSource) :
    ∃ L, (mergePairCore b o).citationSource = some (String.intercalate " || " L) ∧ c ∈ L := by
  cases hcs : e.citationSource with
  | none => rw [hcs] at hc; cases hc
  | some s =>
      rw [hcs] at hc
      rcases mem_merge_citations_list.mp hc with ⟨hne, x, hx, hxc⟩
      by_cases hs : s = ""
      · subst hs
        rw [collectParts_blank] at hx
        cases hx
      · have htr : truthyS e.citationSource := by
          rw [hcs]
          simpa [truthyS] using hs
        have hemem : e ∈ [b, o] := by
          rcases he with rfl | rfl <;> simp
        have hmem := mem_collectCitations (l := [b, o]) hemem htr
        rw [hcs] at hmem
        simp only [Option.getD_some] at hmem
        have hnonempty : (collectCitations [b, o]).isEmpty = false := by
          rcases hcc : collectCitations [b, o] with _ | ⟨y, ys⟩
          · rw [hcc] at hmem; cases hmem
          · rfl
        refine ⟨merge_citations_list (collectCitations [b, o]), ?_, ?_⟩
        · rw [mergePairCore_citationSource, hnonempty]
          rfl
        · refine mem_merge_citations_list.mpr ⟨hne, x, ?_, hxc⟩
          refine mem_collectParts.mpr ⟨s, hmem, hs, ?_⟩
          rwa [collectParts_singleton s hs] at hx

/-- Lift of the previous lemma through `merge_duplicate_records` on the
two-element group `[e, r]`, for the member `e`. -/
theorem mergePair_cit_mono (e r : NRec) (c : String)
    (hc : c ∈ citEntries e.citationSource) :
    ∃ m L, merge_duplicate_records [e, r] = some m ∧
      m.citationSource = some (String.intercalate " || " L) ∧ c ∈ L := by
  rw [mergePair_cases]
  split
  · rcases mergePairCore_cit_superset r e e (Or.inr rfl) c hc with ⟨L, hL, hcL⟩
    exact ⟨_, L, rfl, hL, hcL⟩
  · rcases mergePairCore_cit_superset e r e (Or.inl rfl) c hc with ⟨L, hL, hcL⟩
    exact ⟨_, L, rfl, hL, hcL⟩

/-! ## Claim C6 — the Panagrolaimus merge scenario -/

/-- Claim C6 is false as stated: with citation sources `"A"` and
`"B || A"`, when the record carrying `"B || A"` has the more recent
ingestion timestamp the merged citation source is `"B || A"`, not
`"A || B"`; and the taxonomic level, which is absent from the fill-field
list, is blanked even though the older record had it non-null. -/
theorem C6_counterexample :
    (merge_duplicate_records
        [panRec "2024-01-01T00:00:00+00:00" (some "A") (some 5) none,
         panRec "2024-01-02T00:00:00+00:00" (some "B || A") none none]).map
        (fun m => m.citationSource) = some (some "B || A") ∧
    (merge_duplicate_records
        [panRec "2024-01-01T00:00:00+00:00" (some "A") (some 5) none,
         panRec "2024-01-02T00:00:00+00:00" (some "B || A") none none]).map
        (fun m => m.citationSource) ≠ some (some "A || B") ∧
    (merge_duplicate_records
        [panRec "2024-01-01T00:00:00+00:00" (some "A") (some 5) none,
         panRec "2024-01-02T00:00:00+00:00" (some "B || A") none none]).map
        (fun m => m.taxonomicLevel) = some none ∧
    (panRec "2024-01-01T00:00:00+00:00" (some "A") (some 5) none).taxonomicLevel = some 5 := by
  refine ⟨by decide, by decide, by decide, rfl⟩

/-- Claim C6 (amended): for two duplicate records for taxon
`"Panagrolaimus"` with citation sources `"A"` and `"B || A"`, provided the
record carrying `"A"` is at least as recent, the merged citation source is
exactly `"A || B"` (split, trimmed, deduplicated in first-seen order,
rejoined); a truthy (non-null, non-empty) value of any of the eight
mergeable fields in either record yields a truthy merged value; and the
taxonomic level follows the base (most recent) record. -/
theorem C6_theorem (e r : NRec)
    (hetx : e.taxon = "Panagrolaimus") (_hrtx : r.taxon = "Panagrolaimus")
    (he : e.citationSource = some "A") (hr : r.citationSource = some "B || A")
    (hts : pyStrLt e.ingested_at r.ingested_at = false) :
    ∃ m, merge_duplicate_records [e, r] = some m ∧
      m.citationSource = some "A || B" ∧
      m.taxon = "Panagrolaimus" ∧
      m.taxonomicLevel = e.taxonomicLevel ∧
      (truthyS e.guild || truthyS r.guild → truthyS m.guild) ∧
      (truthyS e.notes || truthyS r.notes → truthyS m.notes) ∧
      (truthyS e.trait || truthyS r.trait → truthyS m.trait) ∧
      (truthyS e.confidenceRanking || truthyS r.confidenceRanking →
        truthyS m.confidenceRanking) ∧
      (truthyS e.trophicMode || truthyS r.trophicMode → truthyS m.trophicMode) ∧
      (truthyS e.growthForm || truthyS r.growthForm → truthyS m.growthForm) ∧
      (truthyS e.guid || truthyS r.guid → truthyS m.guid) ∧
      (truthyS e.mbNumber || truthyS r.mbNumber → truthyS m.mbNumber) := by
  rw [mergePair_cases, hts]
  simp only [Bool.false_eq_true, if_false]
  have hcc : collectCitations [e, r] = ["A", "B || A"] := by
    unfold collectCitations
    simp [he, hr, truthyS]
  refine ⟨mergePairCore e r, rfl, ?_, ?_, mergePairCore_taxonomicLevel e r, ?_, ?_, ?_, ?_,
    ?_, ?_, ?_, ?_⟩
  · rw [mergePairCore_citationSource, hcc]
    show some (merge_citations ["A", "B || A"]) = some "A || B"
    decide
  · rw [mergePairCore_taxon, hetx]
  · rw [mergePairCore_guild]; exact truthy_fill
  · rw [mergePairCore_notes]; exact truthy_fill
  · rw [mergePairCore_trait]; exact truthy_fill
  · rw [mergePairCore_confidenceRanking]; exact truthy_fill
  · rw [mergePairCore_trophicMode]; exact truthy_fill
  · rw [mergePairCore_growthForm]; exact truthy_fill
  · rw [mergePairCore_guid]; exact truthy_fill
  · rw [mergePairCore_mbNumber]; exact truthy_fill

/-- Witness for C6 at concrete records with equal timestamps. -/
theorem C6_witness :
    ∃ m, merge_duplicate_records
        [panRec "2024-01-01T00:00:00+00:00" (some "A") (some 5) (some "n"),
         panRec "2024-01-01T00:00:00+00:00" (some "B || A") none none] = some m ∧
      m.citationSource = some "A || B" ∧
      m.taxon = "Panagrolaimus" ∧
      m.taxonomicLevel =
        (panRec "2024-01-01T00:00:00+00:00" (some "A") (some 5) (some "n")).taxonomicLevel ∧
      (truthyS (panRec "2024-01-01T00:00:00+00:00" (some "A") (some 5) (some "n")).guild ||
        truthyS (panRec "2024-01-01T00:00:00+00:00" (some "B || A") none none).guild →
        truthyS m.guild) ∧
      (truthyS (panRec "2024-01-01T00:00:00+00:00" (some "A") (some 5) (some "n")).notes ||
        truthyS (panRec "2024-01-01T00:00:00+00:00" (some "B || A") none none).notes →
        truthyS m.notes) ∧
      (truthyS (panRec "2024-01-01T00:00:00+00:00" (some "A") (some 5) (some "n")).trait ||
        truthyS (panRec "2024-01-01T00:00:00+00:00" (some "B || A") none none).trait →
        truthyS m.trait) ∧
      (truthyS (panRec "2024-01-01T00:00:00+00:00" (some "A") (some 5) (some "n")).confidenceRanking ||
        truthyS (panRec "2024-01-01T00:00:00+00:00" (some "B || A") none none).confidenceRanking →
        truthyS m.confidenceRanking) ∧
      (truthyS (panRec "2024-01-01T00:00:00+00:00" (some "A") (some 5) (some "n")).trophicMode ||
        truthyS (panRec "2024-01-01T00:00:00+00:00" (some "B || A") none none).trophicMode →
        truthyS m.trophicMode) ∧
      (truthyS (panRec "2024-01-01T00:00:00+00:00" (some "A") (some 5) (some "n")).growthForm ||
        truthyS (panRec "2024-01-01T00:00:00+00:00" (some "B || A") none none).growthForm →
        truthyS m.growthForm) ∧
      (truthyS (panRec "2024-01-01T00:00:00+00:00" (some "A") (some 5) (some "n")).guid ||
        truthyS (panRec "2024-01-01T00:00:00+00:00" (some "B || A") none none).guid →
        truthyS m.guid) ∧
      (truthyS (panRec "2024-01-01T00:00:00+00:00" (some "A") (some 5) (some "n")).mbNumber ||
        truthyS (panRec "2024-01-01T00:00:00+00:00" (some "B || A") none none).mbNumber →
        truthyS m.mbNumber) :=
  C6_theorem _ _ rfl rfl rfl rfl (by decide)

/-! ## Claim C7 — all-falsy citation groups -/

/-- Claim C7 is false as stated: a group of two duplicate records whose
citation-source fields are both null merges to a null citation source, not
to the empty string. -/
theorem C7_counterexample :
    (merge_duplicate_records
        [panRec "2024-01-01T00:00:00+00:00" none none none,
         panRec "2024-01-02T00:00:00+00:00" none none none]).map
        (fun m => m.citationSource) = some none ∧
    (merge_duplicate_records
        [panRec "2024-01-01T00:00:00+00:00" none none none,
         panRec "2024-01-02T00:00:00+00:00" none none none]).map
        (fun m => m.citationSource) ≠ some (some "") := by
  exact ⟨by decide, by decide⟩

/-- Claim C7 (amended): when every member of a group of two or more
duplicate records has a falsy (null or empty) citation source, the merged
citation source is the base (most recent) record's value unchanged — in
particular the empty string when every member carries the empty string,
but null when every member carries null. -/
theorem C7_theorem (r1 r2 : NRec) (rs : List NRec)
    (h : ∀ q ∈ r1 :: r2 :: rs, ¬ truthyS q.citationSource) :
    ∃ m, merge_duplicate_records (r1 :: r2 :: rs) = some m ∧
      m.citationSource = ((sortDesc (r1 :: r2 :: rs)).headD r1).citationSource ∧
      ((∀ q ∈ r1 :: r2 :: rs, q.citationSource = some "") →
        m.citationSource = some "") := by
  have hc : collectCitations (sortDesc (r1 :: r2 :: rs)) = [] :=
    collectCitations_eq_nil fun q hq => h q (mem_sortDesc.mp hq)
  unfold merge_duplicate_records
  dsimp only
  rw [hc]
  simp only [List.isEmpty_nil, if_pos]
  refine ⟨_, rfl, ?_, ?_⟩
  · rw [foldl_fillFrom_citationSource]
  · intro hall
    rw [foldl_fillFrom_citationSource]
    have hne : sortDesc (r1 :: r2 :: rs) ≠ [] := by
      intro hnil
      have : r1 ∈ sortDesc (r1 :: r2 :: rs) := mem_sortDesc.mpr (by simp)
      rw [hnil] at this
      cases this
    exact hall _ (mem_sortDesc.mp (headD_mem hne))

/-- Witness for C7 at a concrete all-empty-string group. -/
theorem C7_witness :
    ∃ m, merge_duplicate_records
        [panRec "2024-01-01T00:00:00+00:00" (some "") none none,
         panRec "2024-01-02T00:00:00+00:00" (some "") none none] = some m ∧
      m.citationSource =
        ((sortDesc
            [panRec "2024-01-01T00:00:00+00:00" (some "") none none,
             panRec "2024-01-02T00:00:00+00:00" (some "") none none]).headD
          (panRec "2024-01-01T00:00:00+00:00" (some "") none none)).citationSource ∧
      ((∀ q ∈ [panRec "2024-01-01T00:00:00+00:00" (some "") none none,
               panRec "2024-01-02T00:00:00+00:00" (some "") none none],
          q.citationSource = some "") →
        m.citationSource = some "") :=
  C7_theorem _ _ [] (by decide)

/-! ## Claim C4 — the record normalizer -/

theorem clean_str_of_nullForm {v : Option PyV} (h : isNullForm v = true) :
    clean_str v = none := by
  cases v with
  | none => rfl
  | some x =>
      cases x with
      | null => rfl
      | str s =>
          simp only [isNullForm, decide_eq_true_eq, pyToString] at h
          simp only [clean_str, pyToString]
          rw [if_pos h]
      | int n =>
          simp only [isNullForm, decide_eq_true_eq, pyToString] at h
          simp only [clean_str, pyToString]
          rw [if_pos h]

/-- Claim C4 is false as stated: the guid-keyed normalizer accepts a record
whose `guid` field is the string `"NULL"` and stores the string `"NULL"`,
not an explicit null — `guid` bypasses the sentinel coercion. -/
theorem C4_counterexample :
    (fg_normalize { guid := some (.str "NULL") } "t").map (fun r => r.guid)
      = some (some "NULL") ∧
    (fg_normalize { guid := some (.str "NULL") } "t").map (fun r => r.guid) ≠ some none ∧
    isNullForm ({ guid := some (.str "NULL") } : RawRec).guid = true := by
  refine ⟨by decide, by decide, by decide⟩

/-- Claim C4 (amended): in either dataset a record whose required
natural-key field is absent or blank after trimming is dropped, and every
field of an accepted record whose trimmed string form case-insensitively
equals `"NULL"` is stored as an explicit null — except the guid-keyed
dataset's own `guid` field, which is only stringified and stripped, so a
`guid` of `"NULL"` is stored verbatim.  (In the taxon-keyed dataset a
`"NULL"` taxon drops the whole record.) -/
theorem C4_theorem :
    (∀ (rec : RawRec) (now : String),
      keyAbsentOrBlank rec.guid = true → fg_normalize rec now = none) ∧
    (∀ (rec : RawRec) (now : String) (r : FRec), fg_normalize rec now = some r →
      (isNullForm rec.taxon = true → r.taxon = none) ∧
      (isNullForm rec.mbNumber = true → r.mbNumber = none) ∧
      (isNullForm rec.taxonomicLevel = true → r.taxonomicLevel = none) ∧
      (isNullForm rec.trophicMode = true → r.trophicMode = none) ∧
      (isNullForm rec.guild = true → r.guild = none) ∧
      (isNullForm rec.confidenceRanking = true → r.confidenceRanking = none) ∧
      (isNullForm rec.growthForm = true → r.growthForm = none) ∧
      (isNullForm rec.trait = true → r.trait = none) ∧
      (isNullForm rec.notes = true → r.notes = none) ∧
      (isNullForm rec.citationSource = true → r.citationSource = none) ∧
      (∃ g, rec.guid = some g ∧ r.guid = some (pyStrip (pyToString g)))) ∧
    (∀ (rec : RawRec) (now : String),
      keyAbsentOrBlank rec.taxon = true → nm_normalize rec now = none) ∧
    (∀ (rec : RawRec) (now : String),
      isNullForm rec.taxon = true → nm_normalize rec now = none) ∧
    (∀ (rec : RawRec) (now : String) (r : NRec), nm_normalize rec now = some r →
      (isNullForm rec.guid = true → r.guid = none) ∧
      (isNullForm rec.mbNumber = true → r.mbNumber = none) ∧
      (isNullForm rec.taxonomicLevel = true → r.taxonomicLevel = none) ∧
      (isNullForm rec.trophicMode = true → r.trophicMode = none) ∧
      (isNullForm rec.guild = true → r.guild = none) ∧
      (isNullForm rec.confidenceRanking = true → r.confidenceRanking = none) ∧
      (isNullForm rec.growthForm = true → r.growthForm = none) ∧
      (isNullForm rec.trait = true → r.trait = none) ∧
      (isNullForm rec.notes = true → r.notes = none) ∧
      (isNullForm rec.citationSource = true → r.citationSource = none)) := by
  refine ⟨?_, ?_, ?_, ?_, ?_⟩
  · intro rec now hk
    unfold fg_normalize
    cases hg : rec.guid with
    | none => rfl
    | some g =>
        rw [hg] at hk
        cases g with
        | null => rfl
        | int n => simp [keyAbsentOrBlank] at hk
        | str s =>
            simp only [keyAbsentOrBlank, decide_eq_true_eq] at hk
            dsimp only
            by_cases hs : s = ""
            · subst hs
              rfl
            · have h1 : pyTruthy (some (PyV.str s)) = true := by
                simp [pyTruthy, hs]
              have h2 : pyBlankStr (PyV.str s) = true := by
                simp [pyBlankStr, hk]
              rw [h1, h2]
              rfl
  · intro rec now r h
    unfold fg_normalize at h
    cases hg : rec.guid with
    | none => rw [hg] at h; cases h
    | some g =>
        rw [hg] at h
        dsimp only at h
        split at h
        · cases h
        · split at h
          · cases h
          · simp only [Option.some.injEq] at h
            subst h
            refine ⟨?_, ?_, ?_, ?_, ?_, ?_, ?_, ?_, ?_, ?_, g, rfl, rfl⟩ <;>
              intro hnf <;>
              simp [clean_str_of_nullForm hnf]
  · intro rec now hk
    unfold nm_normalize
    cases ht : rec.taxon with
    | none => rfl
    | some g =>
        rw [ht] at hk
        cases g with
        | null => rfl
        | int n => simp [keyAbsentOrBlank] at hk
        | str s =>
            simp only [keyAbsentOrBlank, decide_eq_true_eq] at hk
            have hcs : clean_str (some (PyV.str s)) = some "" := by
              simp only [clean_str, pyToString, hk]
              rw [if_neg (by decide)]
            rw [hcs]
            rfl
  · intro rec now hk
    unfold nm_normalize
    rw [clean_str_of_nullForm hk]
  · intro rec now r h
    unfold nm_normalize at h
    split at h
    · cases h
    · split at h
      · cases h
      · simp only [Option.some.injEq] at h
        subst h
        refine ⟨?_, ?_, ?_, ?_, ?_, ?_, ?_, ?_, ?_, ?_⟩ <;>
          intro hnf <;>
          simp [clean_str_of_nullForm hnf]

/-- Witness for C4: the key-blank branches applied at a concrete blank
record, the accepted branches at a concrete all-`"NULL"` record. -/
theorem C4_witness :
    fg_normalize { guid := some (.str "  ") } "t" = none ∧
    nm_normalize { taxon := none } "t" = none ∧
    (fg_normalize c4wRec "t").map (fun r => (r.taxon, r.notes)) = some (none, none) := by
  refine ⟨(C4_theorem.1 _ "t" (by decide)), (C4_theorem.2.2.1 _ "t" (by decide)), ?_⟩
  cases hfg : fg_normalize c4wRec "t" with
  | none => exact absurd hfg (by decide)
  | some r =>
      have := C4_theorem.2.1 _ "t" r hfg
      simp only [Option.map_some']
      rw [this.1 (by decide), this.2.2.2.2.2.2.2.2.1 (by decide)]

/-! ## Claim C8 — the synchronization sink -/

theorem chunksGo_join (n : Nat) :
    ∀ (fuel : Nat) (l : List α), (chunksGo n fuel l).flatten = l := by
  intro fuel
  induction fuel with
  | zero =>
      intro l
      cases l with
      | nil => rfl
      | cons x xs => simp [chunksGo]
  | succ fuel ih =>
      intro l
      cases l with
      | nil => rfl
      | cons x xs =>
          show (x :: xs).take n ++ (chunksGo n fuel ((x :: xs).drop n)).flatten = x :: xs
          rw [ih]
          exact List.take_append_drop n (x :: xs)

theorem chunksOf_join (n : Nat) (l : List α) : (chunksOf n l).flatten = l :=
  chunksGo_join n l.length l

theorem foldl_filter_chunks (p : String → Bool)
    (ins : List String → String → List String) :
    ∀ (chunks : List (List String)) (acc : List String),
      chunks.foldl (fun acc chunk => (chunk.filter p).foldl ins acc) acc
        = (chunks.flatten.filter p).foldl ins acc := by
  intro chunks
  induction chunks with
  | nil => intro acc; rfl
  | cons c cs ih =>
      intro acc
      simp only [List.foldl_cons, List.flatten_cons, List.filter_append, List.foldl_append]
      rw [ih]

/-- The chunked existence check computes exactly the deduplicated list of
batch keys present in the store, for every chunk layout. -/
theorem get_existing_guids_eq (db : List FRec) (guids : List String) :
    get_existing_guids db guids
      = dedupKeepFirst (guids.filter (fun g => fgHasGuid db g)) := by
  unfold get_existing_guids dedupKeepFirst
  rw [foldl_filter_chunks, chunksOf_join]

theorem dedup_ins_disjoint :
    ∀ (l acc : List String), (∀ x ∈ l, x ∉ acc) → l.Nodup →
      l.foldl (fun a g => if g ∈ a then a else a ++ [g]) acc = acc ++ l := by
  intro l
  induction l with
  | nil => intro acc _ _; simp
  | cons x xs ih =>
      intro acc hd hn
      simp only [List.foldl_cons]
      rw [if_neg (hd x (List.mem_cons_self x xs))]
      rw [ih (acc ++ [x]) ?_ (List.Nodup.of_cons hn)]
      · simp
      · intro y hy
        simp only [List.mem_append, List.mem_singleton]
        rintro (h | rfl)
        · exact hd y (List.mem_cons_of_mem _ hy) h
        · exact (List.nodup_cons.mp hn).1 hy

theorem dedupKeepFirst_of_nodup {l : List String} (h : l.Nodup) :
    dedupKeepFirst l = l := by
  unfold dedupKeepFirst
  rw [dedup_ins_disjoint l [] (by simp) h]
  simp

theorem filter_map_getD (records : List FRec) (p : String → Bool) :
    (records.map (fun r => r.guid.getD "")).filter p
      = (records.filter (fun r => p (r.guid.getD ""))).map (fun r => r.guid.getD "") := by
  induction records with
  | nil => rfl
  | cons r rs ih =>
      simp only [List.map_cons, List.filter_cons]
      cases hp : p (r.guid.getD "") <;> simp [hp, ih]

theorem length_filter_not_add (p : α → Bool) (l : List α) :
    (l.filter p).length + (l.filter (fun x => !p x)).length = l.length := by
  induction l with
  | nil => rfl
  | cons x xs ih =>
      simp only [List.filter_cons]
      cases hp : p x <;> simp [hp] <;> omega

theorem keyedStep_keys {α κ : Type} [DecidableEq κ] (key : α → κ)
    (db : List α) (r : α) (k : κ) :
    keyPresent key (keyedStep key db r) k
      = (keyPresent key db k || decide (key r = k)) := by
  unfold keyedStep
  split
  · rename_i hpres
    have hkeys : keyPresent key (db.map (fun row => if key row = key r then r else row)) k
        = keyPresent key db k := by
      clear hpres
      unfold keyPresent
      induction db with
      | nil => rfl
      | cons row rows ih =>
          simp only [List.map_cons, List.any_cons, ih]
          by_cases hg : key row = key r
          · rw [if_pos hg, hg]
          · rw [if_neg hg]
    rw [hkeys]
    by_cases hk : key r = k
    · subst hk
      simp only [decide_eq_true_eq]
      rw [hpres]
      simp
    · simp [hk]
  · unfold keyPresent
    simp [List.any_append]

theorem keyedStep_length {α κ : Type} [DecidableEq κ] (key : α → κ)
    (db : List α) (r : α) :
    (keyedStep key db r).length
      = if keyPresent key db (key r) then db.length else db.length + 1 := by
  unfold keyedStep
  split <;> simp_all

theorem keyedStep_nodup {α κ : Type} [DecidableEq κ] (key : α → κ)
    (db : List α) (r : α) (h : (db.map key).Nodup) :
    ((keyedStep key db r).map key).Nodup := by
  unfold keyedStep
  split
  · rename_i hpres
    have : (db.map (fun row => if key row = key r then r else row)).map key
        = db.map key := by
      clear hpres h
      induction db with
      | nil => rfl
      | cons row rows ih =>
          simp only [List.map_cons, List.map_map] at ih ⊢
          by_cases hg : key row = key r
          · rw [if_pos hg, hg, ih]
          · rw [if_neg hg, ih]
    rw [this]
    exact h
  · rename_i habs
    rw [List.map_append]
    simp only [List.map_cons, List.map_nil]
    rw [List.nodup_append]
    refine ⟨h, List.nodup_singleton _, ?_⟩
    intro g hg hg1
    simp only [List.mem_singleton] at hg1
    subst hg1
    rcases List.mem_map.mp hg with ⟨row, hrow, hrg⟩
    have : keyPresent key db (key r) = true := by
      unfold keyPresent
      rw [List.any_eq_true]
      exact ⟨row, hrow, by simp [hrg]⟩
    simp [this] at habs

theorem kfilter_map_replace_none {α κ : Type} [DecidableEq κ] (key : α → κ)
    (rows : List α) (r : α) (k : κ) (h : ∀ row ∈ rows, key row ≠ k) :
    (rows.map (fun row => if key row = key r then r else row)).filter
        (fun row => decide (key row = k))
      = rows.filter (fun row => decide (key row = k)) := by
  induction rows with
  | nil => rfl
  | cons row rest ih =>
      simp only [List.map_cons, List.filter_cons]
      have hrow := h row (List.mem_cons_self row rest)
      have ihr := ih fun q hq => h q (List.mem_cons_of_mem _ hq)
      by_cases hg : key row = key r
      · rw [if_pos hg]
        have h1 : decide (key r = k) = false := by
          rw [← hg]
          simp [hrow]
        have h2 : decide (key row = k) = false := by simp [hrow]
        rw [h1, h2, ihr]
        simp
      · rw [if_neg hg, ihr]

theorem kfilter_map_replace {α κ : Type} [DecidableEq κ] (key : α → κ)
    (db : List α) (r : α) (k : κ) (hk : key r ≠ k) :
    (db.map (fun row => if key row = key r then r else row)).filter
        (fun row => decide (key row = k))
      = db.filter (fun row => decide (key row = k)) := by
  induction db with
  | nil => rfl
  | cons row rows ih =>
      simp only [List.map_cons, List.filter_cons]
      by_cases hg : key row = key r
      · rw [if_pos hg]
        have h1 : decide (key r = k) = false := by simp [hk]
        have h2 : decide (key row = k) = false := by
          rw [hg]
          simp [hk]
        rw [h1, h2, ih]
        simp
      · rw [if_neg hg, ih]

theorem keyedStep_filter_other {α κ : Type} [DecidableEq κ] (key : α → κ)
    (db : List α) (r : α) (k : κ) (hk : key r ≠ k) :
    (keyedStep key db r).filter (fun row => decide (key row = k))
      = db.filter (fun row => decide (key row = k)) := by
  unfold keyedStep
  split
  · exact kfilter_map_replace key db r k hk
  · rw [List.filter_append]
    have : ([r].filter (fun row => decide (key row = k))) = [] := by
      simp [hk]
    rw [this, List.append_nil]

theorem keyedStep_filter_self {α κ : Type} [DecidableEq κ] (key : α → κ)
    (db : List α) (r : α) (hdb : (db.map key).Nodup) :
    (keyedStep key db r).filter (fun row => decide (key row = key r)) = [r] := by
  unfold keyedStep
  split
  · rename_i hpres
    induction db with
    | nil => simp [keyPresent] at hpres
    | cons row rows ih =>
        simp only [List.map_cons, List.nodup_cons] at hdb
        obtain ⟨hrow, hrows⟩ := hdb
        simp only [List.map_cons, List.filter_cons]
        by_cases hg : key row = key r
        · rw [if_pos hg]
          have h1 : decide (key r = key r) = true := by simp
          rw [h1]
          simp only [if_true]
          have hnone : ∀ q ∈ rows, key q ≠ key r := by
            intro q hq he
            apply hrow
            rw [hg, ← he]
            exact List.mem_map_of_mem _ hq
          rw [kfilter_map_replace_none key rows r (key r) hnone]
          have : rows.filter (fun row => decide (key row = key r)) = [] := by
            rw [List.filter_eq_nil_iff]
            intro q hq
            simp [hnone q hq]
          rw [this]
        · rw [if_neg hg]
          have h2 : decide (key row = key r) = false := by simp [hg]
          rw [h2]
          simp only [Bool.false_eq_true, if_false]
          apply ih hrows
          have : keyPresent key (row :: rows) (key r)
              = (decide (key row = key r) || keyPresent key rows (key r)) := by
            simp [keyPresent]
          rw [this, h2] at hpres
          simpa using hpres
  · rename_i habs
    rw [List.filter_append]
    have h1 : db.filter (fun row => decide (key row = key r)) = [] := by
      rw [List.filter_eq_nil_iff]
      intro q hq he
      apply absurd habs
      simp only [not_not]
      unfold keyPresent
      rw [List.any_eq_true]
      exact ⟨q, hq, he⟩
    rw [h1]
    simp

theorem keyed_foldl_filter_other {α κ : Type} [DecidableEq κ] (key : α → κ) :
    ∀ (records : List α) (db : List α) (k : κ),
      (∀ r ∈ records, key r ≠ k) →
      (records.foldl (keyedStep key) db).filter (fun row => decide (key row = k))
        = db.filter (fun row => decide (key row = k)) := by
  intro records
  induction records with
  | nil => intro db k _; rfl
  | cons r rs ih =>
      intro db k h
      simp only [List.foldl_cons]
      rw [ih _ k fun q hq => h q (List.mem_cons_of_mem _ hq)]
      exact keyedStep_filter_other key db r k (h r (List.mem_cons_self r rs))

theorem keyed_foldl_length {α κ : Type} [DecidableEq κ] (key : α → κ) :
    ∀ (records : List α) (db : List α),
      (records.map key).Nodup →
      (records.foldl (keyedStep key) db).length
        = db.length + (records.filter (fun r => !keyPresent key db (key r))).length := by
  intro records
  induction records with
  | nil => intro db _; simp
  | cons r rs ih =>
      intro db hnd
      simp only [List.map_cons, List.nodup_cons] at hnd
      obtain ⟨hr, hrs⟩ := hnd
      simp only [List.foldl_cons, List.filter_cons]
      rw [ih _ hrs]
      have hfilter : rs.filter (fun q => !keyPresent key (keyedStep key db r) (key q))
          = rs.filter (fun q => !keyPresent key db (key q)) := by
        apply List.filter_congr
        intro q h'
        rw [keyedStep_keys]
        have hne : key r ≠ key q := fun he => hr (he ▸ List.mem_map_of_mem _ h')
        simp [hne]
      rw [hfilter, keyedStep_length]
      cases hpres : keyPresent key db (key r)
      · simp
        omega
      · simp

theorem keyed_foldl_row {α κ : Type} [DecidableEq κ] (key : α → κ) :
    ∀ (records : List α) (db : List α),
      (records.map key).Nodup →
      (db.map key).Nodup →
      ∀ r ∈ records,
        (records.foldl (keyedStep key) db).filter (fun row => decide (key row = key r))
          = [r] := by
  intro records
  induction records with
  | nil => intro db _ _ r hr; cases hr
  | cons x xs ih =>
      intro db hnd hdb r hr
      simp only [List.map_cons, List.nodup_cons] at hnd
      obtain ⟨hx, hxs⟩ := hnd
      rcases List.mem_cons.mp hr with rfl | hr
      · simp only [List.foldl_cons]
        rw [keyed_foldl_filter_other key xs (keyedStep key db r) (key r)
          (fun q hq he => hx (he ▸ List.mem_map_of_mem _ hq))]
        exact keyedStep_filter_self key db r hdb
      · simp only [List.foldl_cons]
        exact ih (keyedStep key db x) hxs (keyedStep_nodup key db x hdb) r hr

theorem nodup_getD_of_some {l : List (Option String)}
    (hs : ∀ x ∈ l, x ≠ none) (h : l.Nodup) :
    (l.map (fun x => x.getD "")).Nodup := by
  induction l with
  | nil => exact List.nodup_nil
  | cons x xs ih =>
      simp only [List.map_cons, List.nodup_cons] at h ⊢
      obtain ⟨hx, hxs⟩ := h
      refine ⟨?_, ih (fun y hy => hs y (List.mem_cons_of_mem _ hy)) hxs⟩
      intro hmem
      rcases List.mem_map.mp hmem with ⟨y, hy, hyx⟩
      rcases Option.ne_none_iff_exists.mp (hs x (List.mem_cons_self x xs)) with ⟨a, ha⟩
      rcases Option.ne_none_iff_exists.mp (hs y (List.mem_cons_of_mem _ hy)) with ⟨b, hb⟩
      have hba : b = a := by
        rw [← ha, ← hb] at hyx
        simpa using hyx
      apply hx
      rw [← ha, ← hba, hb]
      exact hy

theorem fgHasGuid_getD {db : List FRec} {k : Option String} (h : k ≠ none) :
    fgHasGuid db (k.getD "") = fgHasKey db k := by
  cases k with
  | none => exact absurd rfl h
  | some g => rfl

/-- Claim C8 is false as stated: a batch carrying the same fresh key twice
is reported as two inserts, while only one row is actually inserted (the
second occurrence hits the conflict path and updates). -/
theorem C8_counterexample :
    (fg_upsert_many [] [fgRow (some "g") (some "A") none "1",
        fgRow (some "g") none none "2"]).1 = (2, 0) ∧
    ((fg_upsert_many [] [fgRow (some "g") (some "A") none "1",
        fgRow (some "g") none none "2"]).2).length = 1 ∧
    (fg_upsert_many [] [fgRow (some "g") (some "A") none "1",
        fgRow (some "g") none none "2"]).1.1
      ≠ ((fg_upsert_many [] [fgRow (some "g") (some "A") none "1",
          fgRow (some "g") none none "2"]).2).length - ([] : List FRec).length := by
  refine ⟨by decide, by decide, by decide⟩

/-- Claim C8 (amended): for every batch whose records carry pairwise
distinct, non-null natural keys (and a store with unique keys, the primary
key invariant), the reported counts are exact — inserted is the number of
batch keys absent from the store, updated the number present, their sum the
batch size; the row count grows by exactly the inserted count; after the
run every batch record is the unique stored row for its key; and the
chunked existence check computes exactly the set of stored batch keys. -/
theorem C8_theorem (db records : List FRec)
    (hsome : ∀ r ∈ records, r.guid ≠ none)
    (hnd : (records.map (fun r => r.guid)).Nodup)
    (hdb : (db.map (fun row => row.guid)).Nodup) :
    (fg_upsert_many db records).1
        = ((records.filter (fun r => !fgHasKey db r.guid)).length,
           (records.filter (fun r => fgHasKey db r.guid)).length) ∧
    (fg_upsert_many db records).2 = records.foldl fgUpsertStep db ∧
    ((fg_upsert_many db records).2).length
        = db.length + (records.filter (fun r => !fgHasKey db r.guid)).length ∧
    (∀ r ∈ records,
      ((fg_upsert_many db records).2).filter
        (fun row => decide (row.guid = r.guid)) = [r]) ∧
    (∀ guids, get_existing_guids db guids
        = dedupKeepFirst (guids.filter (fun g => fgHasGuid db g))) := by
  have hcount : (get_existing_guids db (records.map (fun r => r.guid.getD ""))).length
      = (records.filter (fun r => fgHasKey db r.guid)).length := by
    rw [get_existing_guids_eq]
    have hmm : records.map (fun r => r.guid.getD "")
        = (records.map (fun r => r.guid)).map (fun x => x.getD "") := by
      rw [List.map_map]
      rfl
    have hgnd : (records.map (fun r => r.guid.getD "")).Nodup := by
      rw [hmm]
      exact nodup_getD_of_some
        (fun x hx => by
          rcases List.mem_map.mp hx with ⟨r, hr, hrx⟩
          rw [← hrx]
          exact hsome r hr)
        hnd
    rw [dedupKeepFirst_of_nodup (List.Nodup.filter _ hgnd)]
    rw [filter_map_getD, List.length_map]
    congr 1
    apply List.filter_congr
    intro r hr
    rw [fgHasGuid_getD (hsome r hr)]
  have hfold2 : ∀ (st : List FRec), (records.foldl fgUpsertStep st)
      = records.foldl (keyedStep (fun row => row.guid)) st := by
    intro st
    rfl
  refine ⟨?_, ?_, ?_, ?_, fun guids => get_existing_guids_eq db guids⟩
  · cases records with
    | nil => simp [fg_upsert_many]
    | cons r rs =>
        show ((r :: rs).length
            - (get_existing_guids db ((r :: rs).map (fun q => q.guid.getD ""))).length,
          (get_existing_guids db ((r :: rs).map (fun q => q.guid.getD ""))).length) = _
        rw [hcount]
        have hsum := length_filter_not_add (fun q => fgHasKey db q.guid) (r :: rs)
        have : (r :: rs).length
            - ((r :: rs).filter (fun q => fgHasKey db q.guid)).length
          = ((r :: rs).filter (fun q => !fgHasKey db q.guid)).length := by omega
        rw [this]
  · cases records with
    | nil => rfl
    | cons r rs => rfl
  · have h2 : (fg_upsert_many db records).2 = records.foldl fgUpsertStep db := by
      cases records with
      | nil => rfl
      | cons r rs => rfl
    rw [h2, hfold2]
    exact keyed_foldl_length (fun row => row.guid) records db hnd
  · intro r hr
    have h2 : (fg_upsert_many db records).2 = records.foldl fgUpsertStep db := by
      cases records with
      | nil => rfl
      | cons r rs => rfl
    rw [h2, hfold2]
    exact keyed_foldl_row (fun row => row.guid) records db hnd hdb r hr

/-- Witness for C8 at a one-present-one-fresh concrete batch. -/
theorem C8_witness :
    (fg_upsert_many [fgRow (some "a") (some "A") none "0"]
        [fgRow (some "a") (some "B") none "1", fgRow (some "b") none none "1"]).1
      = (([fgRow (some "a") (some "B") none "1", fgRow (some "b") none none "1"].filter
            (fun r => !fgHasKey [fgRow (some "a") (some "A") none "0"] r.guid)).length,
         ([fgRow (some "a") (some "B") none "1", fgRow (some "b") none none "1"].filter
            (fun r => fgHasKey [fgRow (some "a") (some "A") none "0"] r.guid)).length) ∧
    ((fg_upsert_many [fgRow (some "a") (some "A") none "0"]
        [fgRow (some "a") (some "B") none "1", fgRow (some "b") none none "1"]).2).length
      = ([fgRow (some "a") (some "A") none "0"] : List FRec).length
        + ([fgRow (some "a") (some "B") none "1", fgRow (some "b") none none "1"].filter
            (fun r => !fgHasKey [fgRow (some "a") (some "A") none "0"] r.guid)).length :=
  ⟨(C8_theorem _ _ (by decide) (by decide) (by decide)).1,
   (C8_theorem _ _ (by decide) (by decide) (by decide)).2.2.1⟩

/-! ## Claim C1 — cross-run merge monotonicity -/

/-- A truthy mergeable field of either member survives the pair merge. -/
theorem mergePair_truthy (e r m : NRec)
    (hm : merge_duplicate_records [e, r] = some m) :
    ((truthyS e.guild || truthyS r.guild) → truthyS m.guild) ∧
    ((truthyS e.notes || truthyS r.notes) → truthyS m.notes) ∧
    ((truthyS e.trait || truthyS r.trait) → truthyS m.trait) ∧
    ((truthyS e.confidenceRanking || truthyS r.confidenceRanking) →
      truthyS m.confidenceRanking) ∧
    ((truthyS e.trophicMode || truthyS r.trophicMode) → truthyS m.trophicMode) ∧
    ((truthyS e.growthForm || truthyS r.growthForm) → truthyS m.growthForm) ∧
    ((truthyS e.guid || truthyS r.guid) → truthyS m.guid) ∧
    ((truthyS e.mbNumber || truthyS r.mbNumber) → truthyS m.mbNumber) := by
  rw [mergePair_cases] at hm
  simp only [Option.some.injEq] at hm
  subst hm
  split
  · refine ⟨?_, ?_, ?_, ?_, ?_, ?_, ?_, ?_⟩ <;> intro h <;> rw [Bool.or_comm] at h
    · rw [mergePairCore_guild]; exact truthy_fill h
    · rw [mergePairCore_notes]; exact truthy_fill h
    · rw [mergePairCore_trait]; exact truthy_fill h
    · rw [mergePairCore_confidenceRanking]; exact truthy_fill h
    · rw [mergePairCore_trophicMode]; exact truthy_fill h
    · rw [mergePairCore_growthForm]; exact truthy_fill h
    · rw [mergePairCore_guid]; exact truthy_fill h
    · rw [mergePairCore_mbNumber]; exact truthy_fill h
  · refine ⟨?_, ?_, ?_, ?_, ?_, ?_, ?_, ?_⟩ <;> intro h
    · rw [mergePairCore_guild]; exact truthy_fill h
    · rw [mergePairCore_notes]; exact truthy_fill h
    · rw [mergePairCore_trait]; exact truthy_fill h
    · rw [mergePairCore_confidenceRanking]; exact truthy_fill h
    · rw [mergePairCore_trophicMode]; exact truthy_fill h
    · rw [mergePairCore_growthForm]; exact truthy_fill h
    · rw [mergePairCore_guid]; exact truthy_fill h
    · rw [mergePairCore_mbNumber]; exact truthy_fill h

theorem chunksOf_single (t : String) : chunksOf 900 [t] = [[t]] := rfl

theorem get_existing_taxa_single (db : List NRec) (t : String) (e : NRec)
    (h : db.filter (fun row => decide (row.taxon = t)) = [e]) :
    get_existing_taxa db [t] = [(t, e)] := by
  have het : e.taxon = t := by
    have hmem : e ∈ db.filter (fun row => decide (row.taxon = t)) := by
      rw [h]
      exact List.mem_singleton_self e
    have := List.of_mem_filter hmem
    simpa using this
  unfold get_existing_taxa
  rw [chunksOf_single]
  simp only [List.foldl_cons, List.foldl_nil]
  have hfeq : db.filter (fun row => [t].contains row.taxon) = [e] := by
    rw [← h]
    apply List.filter_congr
    intro row _
    simp [List.contains, eq_comm]
  rw [hfeq]
  simp only [List.foldl_cons, List.foldl_nil]
  unfold dictInsert
  simp [het]

/-- Ingesting a single record whose taxon matches exactly one stored row:
the sink merges the stored row with the incoming record and writes the
merge result. -/
theorem nm_upsert_single (db : List NRec) (rec e : NRec)
    (h : db.filter (fun row => decide (row.taxon = rec.taxon)) = [e]) :
    ∃ merged, merge_duplicate_records [e, rec] = some merged ∧
      nm_upsert_many db [rec]
        = ((0, 1, if e.citationSource ≠ merged.citationSource then 1 else 0),
           nmUpsertStep db merged) := by
  refine ⟨if pyStrLt e.ingested_at rec.ingested_at then mergePairCore rec e
          else mergePairCore e rec, mergePair_cases e rec, ?_⟩
  unfold nm_upsert_many
  dsimp only
  simp only [List.map_cons, List.map_nil]
  rw [get_existing_taxa_single db rec.taxon e h]
  simp only [List.foldl_cons, List.foldl_nil]
  have hfind : dictFind [(rec.taxon, e)] rec.taxon = some e := by
    simp [dictFind]
  rw [hfind]
  dsimp only
  rw [mergePair_cases]
  dsimp only [Option.getD_some]
  simp only [List.nil_append, List.foldl_cons, List.foldl_nil, Nat.zero_add]

/-- Claim C1 is false as stated: in the guid-keyed dataset the upsert of an
existing key overwrites every field, so a stored citation entry is lost and
stored non-null fields are blanked by incoming nulls; and in the
taxon-keyed dataset the taxonomic level (absent from the fill list) and a
stored empty-string field are blanked as well. -/
theorem C1_counterexample :
    ((fg_upsert_many [fgRow (some "g") (some "A") (some "x") "0"]
        [fgRow (some "g") none none "1"]).2).map
        (fun row => (row.citationSource, row.notes)) = [(none, none)] ∧
    (fgRow (some "g") (some "A") (some "x") "0").citationSource = some "A" ∧
    (fgRow (some "g") (some "A") (some "x") "0").notes = some "x" ∧
    ((nm_upsert_many [panRec "0" (some "A") (some 5) (some "")]
        [panRec "1" none none none]).2).map
        (fun row => (row.taxonomicLevel, row.notes)) = [(none, none)] ∧
    (panRec "0" (some "A") (some 5) (some "")).taxonomicLevel = some 5 ∧
    (panRec "0" (some "A") (some 5) (some "")).notes = some "" := by
  refine ⟨by decide, by decide, by decide, by decide, by decide, by decide⟩

/-- Claim C1 (amended): ingestion against a stored record is monotonic only
in the taxon-keyed dataset, and there only for the citation source and the
eight fill-listed mergeable fields with truthy values: every citation entry
of the stored record is an entry of the merged citation string, and a
truthy stored field stays truthy; the taxonomic level, raw payload and
timestamp follow the most recent record.  In the guid-keyed dataset the
upsert simply replaces the stored row with the incoming record. -/
theorem C1_theorem :
    (∀ (db : List FRec) (new : FRec), (db.map (fun row => row.guid)).Nodup →
      fgHasKey db new.guid = true →
      (fgUpsertStep db new).filter (fun row => decide (row.guid = new.guid)) = [new]) ∧
    (∀ (db : List NRec) (rec e : NRec),
      db.filter (fun row => decide (row.taxon = rec.taxon)) = [e] →
      ∃ merged, merge_duplicate_records [e, rec] = some merged ∧
        nm_upsert_many db [rec]
          = ((0, 1, if e.citationSource ≠ merged.citationSource then 1 else 0),
             nmUpsertStep db merged) ∧
        (∀ c ∈ citEntries e.citationSource, ∃ L,
          merged.citationSource = some (String.intercalate " || " L) ∧ c ∈ L) ∧
        (truthyS e.guild → truthyS merged.guild) ∧
        (truthyS e.notes → truthyS merged.notes) ∧
        (truthyS e.trait → truthyS merged.trait) ∧
        (truthyS e.confidenceRanking → truthyS merged.confidenceRanking) ∧
        (truthyS e.trophicMode → truthyS merged.trophicMode) ∧
        (truthyS e.growthForm → truthyS merged.growthForm) ∧
        (truthyS e.guid → truthyS merged.guid) ∧
        (truthyS e.mbNumber → truthyS merged.mbNumber)) := by
  constructor
  · intro db new _hdb _hpres
    exact keyedStep_filter_self (fun row => row.guid) db new _hdb
  · intro db rec e h
    rcases nm_upsert_single db rec e h with ⟨merged, hm, hupd⟩
    have htr := mergePair_truthy e rec merged hm
    refine ⟨merged, hm, hupd, ?_, ?_, ?_, ?_, ?_, ?_, ?_, ?_, ?_⟩
    · intro c hc
      rcases mergePair_cit_mono e rec c hc with ⟨m', L, hm', hL, hcL⟩
      rw [hm] at hm'
      simp only [Option.some.injEq] at hm'
      subst hm'
      exact ⟨L, hL, hcL⟩
    · exact fun ht => htr.1 (by rw [ht]; rfl)
    · exact fun ht => htr.2.1 (by rw [ht]; rfl)
    · exact fun ht => htr.2.2.1 (by rw [ht]; rfl)
    · exact fun ht => htr.2.2.2.1 (by rw [ht]; rfl)
    · exact fun ht => htr.2.2.2.2.1 (by rw [ht]; rfl)
    · exact fun ht => htr.2.2.2.2.2.1 (by rw [ht]; rfl)
    · exact fun ht => htr.2.2.2.2.2.2.1 (by rw [ht]; rfl)
    · exact fun ht => htr.2.2.2.2.2.2.2 (by rw [ht]; rfl)

/-- Witness for C1 at a concrete store and record. -/
theorem C1_witness :
    (fgUpsertStep [fgRow (some "w") (some "A") none "0"]
        (fgRow (some "w") none (some "n") "1")).filter
        (fun row => decide (row.guid = (fgRow (some "w") none (some "n") "1").guid))
      = [fgRow (some "w") none (some "n") "1"] ∧
    ∃ merged, merge_duplicate_records
        [panRec "0" (some "A ; B") none (some "k"), panRec "1" (some "C") none none]
        = some merged ∧
      nm_upsert_many [panRec "0" (some "A ; B") none (some "k")]
          [panRec "1" (some "C") none none]
        = ((0, 1, if (panRec "0" (some "A ; B") none (some "k")).citationSource
              ≠ merged.citationSource then 1 else 0),
           nmUpsertStep [panRec "0" (some "A ; B") none (some "k")] merged) ∧
      (∀ c ∈ citEntries (panRec "0" (some "A ; B") none (some "k")).citationSource,
        ∃ L, merged.citationSource = some (String.intercalate " || " L) ∧ c ∈ L) ∧
      (truthyS (panRec "0" (some "A ; B") none (some "k")).notes →
        truthyS merged.notes) :=
  ⟨C1_theorem.1 [fgRow (some "w") (some "A") none "0"]
      (fgRow (some "w") none (some "n") "1") (by decide) (by decide),
   by
    rcases C1_theorem.2 [panRec "0" (some "A ; B") none (some "k")]
        (panRec "1" (some "C") none none)
        (panRec "0" (some "A ; B") none (some "k")) (by decide) with
      ⟨merged, hm, hupd, hcit, _, hnotes, _⟩
    exact ⟨merged, hm, hupd, hcit, hnotes⟩⟩

/-! ## Claim C9 — upsert of an existing node -/

/-- Claim C9: upserting a TaxonNode whose (name, rank level) pair is
already stored returns the stored identifier, refreshes only the parent
link, leaves every other stored field of every row unchanged (the store's
skeleton — guid, name, level, raw payload, ingestion timestamp — is
untouched), and inserts no row, so identifiers are never reassigned. -/
theorem C9_theorem (st : CrawlSt) (taxon : String) (level : Int) (parent : String)
    (api_id : Option String) (rank : String) (raw : Child) (row : Row)
    (h : st.rows.find? (fun r =>
        decide (r.taxon = taxon) && decide (r.taxonomicLevel = level)) = some row) :
    ∃ st', upsert_node st taxon level parent api_id rank raw = .ok (row.guid, st') ∧
      st'.rows = st.rows.map (fun r =>
        if r.guid = row.guid then { r with parent_guid := parent } else r) ∧
      skel st'.rows = skel st.rows ∧
      st'.rows.length = st.rows.length ∧
      st'.clock = st.clock := by
  unfold upsert_node
  rw [h]
  refine ⟨_, rfl, rfl, ?_, by simp, rfl⟩
  unfold skel
  rw [List.map_map]
  apply List.map_congr_left
  intro r _
  by_cases hg : r.guid = row.guid <;> simp [rowSkel, hg]

/-- Witness for C9 at a concrete one-row store. -/
theorem C9_witness :
    ∃ st', upsert_node ⟨[⟨"G1", "Fungi", 0, "P0", {}, 0⟩], 1⟩ "Fungi" 0 "P9"
        (some "7") "kingdom" {} = .ok ("G1", st') ∧
      st'.rows = [⟨"G1", "Fungi", 0, "P0", {}, 0⟩].map (fun r =>
        if r.guid = "G1" then { r with parent_guid := "P9" } else r) ∧
      skel st'.rows = skel [⟨"G1", "Fungi", 0, "P0", {}, 0⟩] ∧
      st'.rows.length = ([⟨"G1", "Fungi", 0, "P0", {}, 0⟩] : List Row).length ∧
      st'.clock = 1 :=
  C9_theorem ⟨[⟨"G1", "Fungi", 0, "P0", {}, 0⟩], 1⟩ "Fungi" 0 "P9" (some "7")
    "kingdom" {} ⟨"G1", "Fungi", 0, "P0", {}, 0⟩ (by decide)

/-! ## Claim C10 — termination of the recursive crawl -/

theorem crawlDepthGo_le {n : Nat} {d : String → Nat} (hd : ∀ id, d id ≤ n) :
    ∀ children, crawlDepthGo d children ≤ n + 1 := by
  intro children
  induction children with
  | nil => simp [crawlDepthGo]
  | cons c rest ih =>
      simp only [crawlDepthGo]
      split
      · exact ih
      · split
        · exact ih
        · split
          · exact ih
          · split
            · exact ih
            · apply max_le _ ih
              split
              · have := hd (pyIdStr c.id)
                omega
              · omega

theorem crawlDepth_le (api : String → List Child) :
    ∀ (n : Nat) (api_id : String), crawlDepth api n api_id ≤ n := by
  intro n
  induction n with
  | zero => intro api_id; exact Nat.le_refl 0
  | succ n ih =>
      intro api_id
      simp only [crawlDepth]
      split
      · exact Nat.zero_le _
      · exact crawlDepthGo_le ih (api api_id)

/-- Claim C10: the crawl returns immediately (store untouched) once the
rank index reaches the size of the rank-to-level mapping; for every
external source — children listings arbitrary, cycles included — the depth
of nested recursive calls below index `idx` is at most `7 - idx`, hence
never exceeds 7; and a child of rank `species` (any case) is processed
without any recursion into its subtree. -/
theorem C10_theorem :
    (∀ (api : String → List Child) (idx : Nat) (api_id parent : String) (st : CrawlSt),
      RANK_LEVEL_MAP.length ≤ idx →
      ingest_recursive api idx api_id parent st = .ok st) ∧
    (∀ (api : String → List Child) (idx : Nat) (api_id : String),
      crawlDepth api (RANK_LEVEL_MAP.length - idx) api_id
        ≤ RANK_LEVEL_MAP.length - idx ∧
      crawlDepth api (RANK_LEVEL_MAP.length - idx) api_id ≤ 7) ∧
    (∀ (recurse : String → String → CrawlSt → Except String CrawlSt)
        (c : Child) (rest : List Child) (parent : String) (st : CrawlSt)
        (s rank : String),
      c.name = some s → s ≠ "Not assigned" → s ≠ "" →
      c.rank = some rank → pyLower rank = "species" →
      ingestChildrenGo recurse (c :: rest) parent st
        = match upsert_node st s 20 parent c.id rank c with
          | .error e => .error e
          | .ok (_, st1) => ingestChildrenGo recurse rest parent st1) := by
  refine ⟨?_, ?_, ?_⟩
  · intro api idx api_id parent st h
    unfold ingest_recursive
    rw [Nat.sub_eq_zero_of_le h]
    rfl
  · intro api idx api_id
    have h1 := crawlDepth_le api (RANK_LEVEL_MAP.length - idx) api_id
    refine ⟨h1, Nat.le_trans h1 ?_⟩
    have h7 : RANK_LEVEL_MAP.length = 7 := rfl
    omega
  · intro recurse c rest parent st s rank hname hna hne hrank hsp
    obtain ⟨cn, cr, ci⟩ := c
    simp only at hname hrank
    subst hname hrank
    simp only [ingestChildrenGo]
    rw [if_neg (by tauto : ¬(s = "Not assigned" ∨ s = ""))]
    rw [hsp]
    have hlv : rankLevel "species" = some 20 := by decide
    rw [hlv]
    have : ¬ ("species" ≠ "species") := by simp
    simp only [this, if_false]

/-- Witness for C10 at index 7, a concrete source and a species child. -/
theorem C10_witness :
    ingest_recursive apiScenario 7 "F" ANCHOR_FUNGI_GUID ⟨[], 0⟩ = .ok ⟨[], 0⟩ ∧
    crawlDepth apiScenario (RANK_LEVEL_MAP.length - 1) "F" ≤ 7 ∧
    ingestChildrenGo (ingestRecF apiScenario 5)
        [{ name := some "Sp", rank := some "Species", id := some "s1" }] "P" ⟨[], 0⟩
      = match upsert_node ⟨[], 0⟩ "Sp" 20 "P" (some "s1") "Species"
            { name := some "Sp", rank := some "Species", id := some "s1" } with
        | .error e => .error e
        | .ok (_, st1) => ingestChildrenGo (ingestRecF apiScenario 5) [] "P" st1 :=
  ⟨C10_theorem.1 apiScenario 7 "F" ANCHOR_FUNGI_GUID ⟨[], 0⟩ (by decide),
   (C10_theorem.2.1 apiScenario 1 "F").2,
   C10_theorem.2.2 (ingestRecF apiScenario 5)
     { name := some "Sp", rank := some "Species", id := some "s1" } [] "P" ⟨[], 0⟩
     "Sp" "Species" rfl (by decide) (by decide) rfl (by decide)⟩

/-! ## Claim C5 — child filtering in the crawler -/

/-- Claim C5 is false as stated: a child whose rank field is missing
entirely is not skipped — `rank.lower()` raises `AttributeError` and the
crawl aborts instead of continuing with the remaining siblings. -/
theorem C5_counterexample :
    ingest_recursive apiNoRank 1 "F" ANCHOR_FUNGI_GUID ⟨[], 0⟩
      = .error "AttributeError" ∧
    (apiNoRank "F").all (fun c => decide (c.rank = none)) = true ∧
    (apiNoRank "F").all (fun c => decide (c.name = some "X")) = true := by
  refine ⟨by decide, by decide, by decide⟩

/-- Claim C5 (amended): a child is skipped — nothing inserted, nothing
raised, the remaining siblings processed — when its name is missing, blank,
or `"Not assigned"`, and when its rank is present but absent from the
rank-to-level mapping; a child with a well-formed name but no rank field at
all instead raises an error that aborts the crawl.  In the specification's
phylum/class scenario the resulting store holds exactly two nodes, the
`"Not assigned"` child is absent, and the class node's parent identifier is
the phylum's minted identifier. -/
theorem C5_theorem :
    (∀ (recurse : String → String → CrawlSt → Except String CrawlSt)
        (rest : List Child) (parent : String) (st : CrawlSt) (c : Child),
      c.name = none ∨ c.name = some "" ∨ c.name = some "Not assigned" →
      ingestChildrenGo recurse (c :: rest) parent st
        = ingestChildrenGo recurse rest parent st) ∧
    (∀ (recurse : String → String → CrawlSt → Except String CrawlSt)
        (rest : List Child) (parent : String) (st : CrawlSt) (c : Child)
        (s rank : String),
      c.name = some s → s ≠ "Not assigned" → s ≠ "" → c.rank = some rank →
      rankLevel (pyLower rank) = none →
      ingestChildrenGo recurse (c :: rest) parent st
        = ingestChildrenGo recurse rest parent st) ∧
    (∀ (recurse : String → String → CrawlSt → Except String CrawlSt)
        (rest : List Child) (parent : String) (st : CrawlSt) (c : Child) (s : String),
      c.name = some s → s ≠ "Not assigned" → s ≠ "" → c.rank = none →
      ingestChildrenGo recurse (c :: rest) parent st = .error "AttributeError") ∧
    (∃ st', ingest_recursive apiScenario 1 "F" ANCHOR_FUNGI_GUID ⟨[], 0⟩ = .ok st' ∧
      st'.rows.length = 2 ∧
      st'.rows.all (fun r => decide (r.taxon ≠ "Not assigned")) = true ∧
      st'.rows.map (fun r => (r.taxon, r.taxonomicLevel, r.parent_guid))
        = [("Ascomycota", 3, ANCHOR_FUNGI_GUID),
           ("Eurotiomycetes", 5, "GBIF_PHYLUM_1")] ∧
      findGuid st'.rows ("Ascomycota", 3) = some "GBIF_PHYLUM_1") := by
  refine ⟨?_, ?_, ?_, ?_⟩
  · intro recurse rest parent st c h
    obtain ⟨cn, cr, ci⟩ := c
    rcases h with h | h | h <;> simp only at h <;> subst h <;> rfl
  · intro recurse rest parent st c s rank hname hna hne hrank hrl
    obtain ⟨cn, cr, ci⟩ := c
    simp only at hname hrank
    subst hname hrank
    simp only [ingestChildrenGo]
    rw [if_neg (by tauto : ¬(s = "Not assigned" ∨ s = ""))]
    rw [hrl]
  · intro recurse rest parent st c s hname hna hne hrank
    obtain ⟨cn, cr, ci⟩ := c
    simp only at hname hrank
    subst hname hrank
    simp only [ingestChildrenGo]
    rw [if_neg (by tauto : ¬(s = "Not assigned" ∨ s = ""))]
  · refine ⟨⟨[⟨"GBIF_PHYLUM_1", "Ascomycota", 3, ANCHOR_FUNGI_GUID,
        { name := some "Ascomycota", rank := some "phylum", id := some "1" }, 0⟩,
      ⟨"GBIF_CLASS_3", "Eurotiomycetes", 5, "GBIF_PHYLUM_1",
        { name := some "Eurotiomycetes", rank := some "class", id := some "3" }, 1⟩],
      2⟩, by decide, by decide, by decide, by decide, by decide⟩

/-- Witness for C5 at concrete children. -/
theorem C5_witness :
    ingestChildrenGo (ingestRecF apiScenario 5)
        [{ name := some "Not assigned", rank := some "class", id := some "2" },
         { name := some "Weird", rank := some "subphylum", id := some "4" }] "P" ⟨[], 0⟩
      = ingestChildrenGo (ingestRecF apiScenario 5)
        [{ name := some "Weird", rank := some "subphylum", id := some "4" }] "P" ⟨[], 0⟩ ∧
    ingestChildrenGo (ingestRecF apiScenario 5)
        [{ name := some "Weird", rank := some "subphylum", id := some "4" }] "P" ⟨[], 0⟩
      = ingestChildrenGo (ingestRecF apiScenario 5) [] "P" ⟨[], 0⟩ ∧
    ingestChildrenGo (ingestRecF apiScenario 5)
        [{ name := some "X", rank := none, id := some "9" }] "P" ⟨[], 0⟩
      = .error "AttributeError" :=
  ⟨C5_theorem.1 (ingestRecF apiScenario 5) _ "P" ⟨[], 0⟩ _ (Or.inr (Or.inr rfl)),
   C5_theorem.2.1 (ingestRecF apiScenario 5) [] "P" ⟨[], 0⟩ _ "Weird" "subphylum"
     rfl (by decide) (by decide) rfl (by decide),
   C5_theorem.2.2.1 (ingestRecF apiScenario 5) [] "P" ⟨[], 0⟩ _ "X"
     rfl (by decide) (by decide) rfl⟩

/-! ## Claim C2 — idempotence of the crawler

The development characterises a successful run against its visit plan
(`runPost`), applies the characterisation to both runs, and shows the
second run reproduces the first run's final state exactly. -/

theorem findGuid_eq_sk (rows : List Row) (k : String × Int) :
    findGuid rows k = skFindGuid (skel rows) k := by
  unfold findGuid skFindGuid skel
  rw [List.find?_map, Option.map_map]
  rfl

theorem find?_pred_congr {α : Type} (l : List α) {p q : α → Bool}
    (h : ∀ a, p a = q a) : l.find? p = l.find? q := by
  induction l with
  | nil => rfl
  | cons a t ih => rw [List.find?_cons, List.find?_cons, h a, ih]

theorem upsert_find_eq (rows : List Row) (taxon : String) (level : Int) :
    rows.find? (fun r => decide (r.taxon = taxon) && decide (r.taxonomicLevel = level))
      = rows.find? (fun r => decide (rowKey r = (taxon, level))) := by
  apply find?_pred_congr
  intro r
  simp [rowKey, Prod.ext_iff]

theorem hasRowKey_eq_isSome (rows : List Row) (k : String × Int) :
    hasRowKey rows k = (findGuid rows k).isSome := by
  induction rows with
  | nil => rfl
  | cons r rest ih =>
      unfold hasRowKey findGuid at ih ⊢
      rw [List.any_cons, List.find?_cons]
      by_cases h : decide (rowKey r = k) = true
      · rw [h]
        simp
      · rw [Bool.eq_false_iff.mpr h]
        simp only [Bool.false_or]
        exact ih

theorem skFindGuid_mono {l l' : List (String × String × Int × Child × Nat)}
    (h : l <+: l') {k : String × Int} {g : String}
    (hg : skFindGuid l k = some g) : skFindGuid l' k = some g := by
  obtain ⟨tail, rfl⟩ := h
  unfold skFindGuid at hg ⊢
  rw [List.find?_append]
  cases hf : l.find? (fun e => decide (skKey e = k)) with
  | none => rw [hf] at hg; cases hg
  | some e => rw [hf] at hg; exact hg

theorem findGuid_mono {rows rows' : List Row}
    (h : skel rows <+: skel rows') {k : String × Int} {g : String}
    (hg : findGuid rows k = some g) : findGuid rows' k = some g := by
  rw [findGuid_eq_sk] at hg ⊢
  exact skFindGuid_mono h hg

theorem hasRowKey_mono {rows rows' : List Row}
    (h : skel rows <+: skel rows') {k : String × Int}
    (hk : hasRowKey rows k = true) : hasRowKey rows' k = true := by
  rw [hasRowKey_eq_isSome] at hk ⊢
  obtain ⟨g, hg⟩ := Option.isSome_iff_exists.mp hk
  rw [findGuid_mono h hg]
  rfl

theorem findGuid_stable_of_present {rows rows' : List Row}
    (h : skel rows <+: skel rows') {k : String × Int}
    (hk : hasRowKey rows k = true) : findGuid rows' k = findGuid rows k := by
  have := hasRowKey_eq_isSome rows k
  rw [hk] at this
  obtain ⟨g, hg⟩ := Option.isSome_iff_exists.mp this.symm
  rw [hg, findGuid_mono h hg]

theorem findGuid_congr {rows rows' : List Row}
    (h : skel rows = skel rows') (k : String × Int) :
    findGuid rows k = findGuid rows' k := by
  rw [findGuid_eq_sk, findGuid_eq_sk, h]

theorem hasRowKey_congr {rows rows' : List Row}
    (h : skel rows = skel rows') (k : String × Int) :
    hasRowKey rows k = hasRowKey rows' k := by
  rw [hasRowKey_eq_isSome, hasRowKey_eq_isSome, findGuid_congr h]

theorem resolveVal_congr {rows rows' : List Row}
    (h : skel rows = skel rows') (pg : String)
    (v : Option (String × Int)) :
    resolveVal rows pg v = resolveVal rows' pg v := by
  cases v with
  | none => rfl
  | some kp =>
      unfold resolveVal
      dsimp only
      rw [findGuid_congr h]

theorem resolveVal_stable {rows rows' : List Row}
    (h : skel rows <+: skel rows') (pg : String) {v : Option (String × Int)}
    (hp : ∀ kp, v = some kp → hasRowKey rows kp = true) :
    resolveVal rows' pg v = resolveVal rows pg v := by
  cases v with
  | none => rfl
  | some kp =>
      unfold resolveVal
      dsimp only
      rw [findGuid_stable_of_present h (hp kp rfl)]

theorem lastVis_append (vs1 vs2 : Plan) (k : String × Int) :
    lastVis (vs1 ++ vs2) k = (lastVis vs2 k).or (lastVis vs1 k) := by
  unfold lastVis
  rw [List.filter_append, List.map_append, List.getLast?_append]

theorem lastVis_eq_none_iff (vs : Plan) (k : String × Int) :
    lastVis vs k = none ↔ k ∉ planKeys vs := by
  unfold lastVis planKeys
  rw [List.getLast?_eq_none_iff, List.map_eq_nil_iff, List.filter_eq_nil_iff]
  constructor
  · intro h hk
    obtain ⟨v, hv, hvk⟩ := List.mem_map.mp hk
    exact h v hv (by simpa using hvk)
  · intro h v hv hvk
    exact h (List.mem_map.mpr ⟨v, hv, by simpa using hvk⟩)

theorem lastVis_singleton (k0 k : String × Int) (p : Option (String × Int)) :
    lastVis [(k0, p)] k = if k0 = k then some p else none := by
  unfold lastVis
  by_cases h : k0 = k
  · rw [if_pos h]
    simp [h]
  · rw [if_neg h]
    simp [h]

theorem lastVis_reparent (kc : String × Int) (vs : Plan) (k : String × Int) :
    lastVis (reparentVisits kc vs) k
      = (lastVis vs k).map (fun v => some (v.getD kc)) := by
  unfold lastVis reparentVisits
  rw [List.filter_map, List.map_map, List.getLast?_map, List.getLast?_map,
    Option.map_map]
  rfl

theorem lastVis_some_parent {vs : Plan} {k : String × Int}
    {v : Option (String × Int)} (h : lastVis vs k = some v) :
    v = none ∨ ∃ kp, v = some kp ∧ kp ∈ parentKeys vs := by
  cases v with
  | none => exact Or.inl rfl
  | some kp =>
      refine Or.inr ⟨kp, rfl, ?_⟩
      unfold lastVis at h
      have hm := List.mem_of_getLast?_eq_some h
      obtain ⟨entry, hent, hek⟩ := List.mem_map.mp hm
      exact List.mem_filterMap.mpr ⟨entry, List.mem_of_mem_filter hent, hek⟩

theorem lastVis_mem_planKeys {vs : Plan} {k : String × Int}
    {v : Option (String × Int)} (h : lastVis vs k = some v) :
    k ∈ planKeys vs := by
  by_contra hk
  rw [← lastVis_eq_none_iff vs k] at hk
  rw [hk] at h
  cases h

theorem planKeys_reparent (kc : String × Int) (vs : Plan) :
    planKeys (reparentVisits kc vs) = planKeys vs := by
  unfold planKeys reparentVisits
  rw [List.map_map]
  rfl

theorem parentKeys_reparent_sub {kc kp : String × Int} {vs : Plan}
    (h : kp ∈ parentKeys (reparentVisits kc vs)) :
    kp = kc ∨ kp ∈ parentKeys vs := by
  unfold parentKeys reparentVisits at h
  unfold parentKeys
  obtain ⟨entry, hent, hek⟩ := List.mem_filterMap.mp h
  obtain ⟨e0, he0, rfl⟩ := List.mem_map.mp hent
  cases he : e0.2 with
  | none =>
      left
      rw [he] at hek
      simpa using hek.symm
  | some kp0 =>
      right
      rw [he] at hek
      have : kp = kp0 := by simpa using hek.symm
      exact this ▸ List.mem_filterMap.mpr ⟨e0, he0, he⟩

theorem guid_inj {rows : List Row} (hu : guidUnique rows) {r r' : Row}
    (hr : r ∈ rows) (hr' : r' ∈ rows) (hg : r.guid = r'.guid) : r = r' := by
  unfold guidUnique at hu
  induction rows with
  | nil => cases hr
  | cons a l ih =>
      rw [List.map_cons, List.nodup_cons] at hu
      rcases List.mem_cons.mp hr with rfl | hr2 <;>
        rcases List.mem_cons.mp hr' with h' | hr'2
      · exact h' ▸ rfl
      · exact absurd (hg ▸ List.mem_map_of_mem (fun x => x.guid) hr'2) hu.1
      · exact absurd (hg ▸ List.mem_map_of_mem (fun x => x.guid) hr2)
          (h' ▸ hu.1)
      · exact ih hu.2 hr2 hr'2

theorem runPost_nil (pg : String) (s : CrawlSt) (hu : guidUnique s.rows) :
    runPost pg [] s s := by
  refine ⟨List.prefix_refl _, hu, ?_, by omega, ?_, ?_⟩
  · intro k hk
    simp [planKeys, parentKeys] at hk
  · intro i r hr _
    exact hr
  · intro i r v _ hv _
    rw [show lastVis [] (rowKey r) = none from rfl] at hv
    cases hv

theorem runPost_comp {pg : String} {vs1 vs2 : Plan} {s m t : CrawlSt}
    (h1 : runPost pg vs1 s m) (h2 : runPost pg vs2 m t) :
    runPost pg (vs1 ++ vs2) s t := by
  obtain ⟨hpre1, hu1, hkeys1, hclk1, h4a1, h4b1⟩ := h1
  obtain ⟨hpre2, hu2, hkeys2, hclk2, h4a2, h4b2⟩ := h2
  refine ⟨hpre1.trans hpre2, hu2, ?_, by omega, ?_, ?_⟩
  · intro k hk
    have hsplit : k ∈ planKeys vs1 ++ parentKeys vs1 ∨
        k ∈ planKeys vs2 ++ parentKeys vs2 := by
      unfold planKeys parentKeys at hk ⊢
      rw [List.map_append, List.filterMap_append] at hk
      simp only [List.mem_append] at hk ⊢
      tauto
    rcases hsplit with hks | hks
    · exact hasRowKey_mono hpre2 (hkeys1 k hks)
    · exact hkeys2 k hks
  · intro i r hr hcase
    rcases hcase with hnone | hnf
    · rw [lastVis_append] at hnone
      have h2n : lastVis vs2 (rowKey r) = none ∧ lastVis vs1 (rowKey r) = none := by
        cases hv2 : lastVis vs2 (rowKey r) <;> cases hv1 : lastVis vs1 (rowKey r) <;>
          rw [hv2, hv1] at hnone <;> simp_all [Option.or]
      have hm := h4a2 i r hr (Or.inl h2n.1)
      exact h4a1 i r hm (Or.inl h2n.2)
    · have hm := h4a2 i r hr (Or.inr hnf)
      have hmem_m : r ∈ m.rows := List.get?_mem hm
      have hkm : hasRowKey m.rows (rowKey r) = true := by
        unfold hasRowKey
        rw [List.any_eq_true]
        exact ⟨r, hmem_m, by simp⟩
      have hnf_m : ¬ isFirstOfKey m.rows r := by
        intro hfm
        apply hnf
        unfold isFirstOfKey at hfm ⊢
        rw [findGuid_stable_of_present hpre2 hkm]
        exact hfm
      exact h4a1 i r hm (Or.inr hnf_m)
  · intro i r v hr hv hf
    rw [lastVis_append] at hv
    cases hv2 : lastVis vs2 (rowKey r) with
    | some v2 =>
        rw [hv2] at hv
        have hvv : v2 = v := by simpa [Option.or] using hv
        exact hvv ▸ h4b2 i r v2 hr hv2 hf
    | none =>
        rw [hv2] at hv
        have hv1 : lastVis vs1 (rowKey r) = some v := by simpa [Option.or] using hv
        have hm := h4a2 i r hr (Or.inl hv2)
        have hmem_m : r ∈ m.rows := List.get?_mem hm
        have hkm : hasRowKey m.rows (rowKey r) = true := by
          unfold hasRowKey
          rw [List.any_eq_true]
          exact ⟨r, hmem_m, by simp⟩
        have hfm : isFirstOfKey m.rows r := by
          unfold isFirstOfKey at hf ⊢
          rw [← findGuid_stable_of_present hpre2 hkm]
          exact hf
        have hpar := h4b1 i r v hm hv1 hfm
        rw [hpar]
        symm
        apply resolveVal_stable hpre2
        intro kp hkp
        rcases lastVis_some_parent hv1 with hvn | ⟨kp', hkp', hmemp⟩
        · rw [hvn] at hkp; cases hkp
        · rw [hkp'] at hkp
          injection hkp with hkp
          subst hkp
          exact hkeys1 kp' (List.mem_append.mpr (Or.inr hmemp))

theorem runPost_reparent {pg : String} (pg' : String) {kc : String × Int} {vs : Plan}
    {s t : CrawlSt} (hkc : findGuid s.rows kc = some pg')
    (h : runPost pg' vs s t) :
    runPost pg (reparentVisits kc vs) s t := by
  obtain ⟨hpre, hu, hkeys, hclk, h4a, h4b⟩ := h
  have hkcs : hasRowKey s.rows kc = true := by
    rw [hasRowKey_eq_isSome, hkc]
    rfl
  have hkct : findGuid t.rows kc = some pg' := findGuid_mono hpre hkc
  refine ⟨hpre, hu, ?_, hclk, ?_, ?_⟩
  · intro k hk
    rw [List.mem_append] at hk
    rcases hk with hk | hk
    · rw [planKeys_reparent] at hk
      exact hkeys k (List.mem_append.mpr (Or.inl hk))
    · rcases parentKeys_reparent_sub hk with rfl | hk
      · exact hasRowKey_mono hpre hkcs
      · exact hkeys k (List.mem_append.mpr (Or.inr hk))
  · intro i r hr hcase
    apply h4a i r hr
    rcases hcase with hnone | hnf
    · left
      rw [lastVis_reparent] at hnone
      exact Option.map_eq_none'.mp hnone
    · right
      exact hnf
  · intro i r v hr hv hf
    rw [lastVis_reparent] at hv
    obtain ⟨v0, hv0, rfl⟩ := Option.map_eq_some'.mp hv
    have hpar := h4b i r v0 hr hv0 hf
    rw [hpar]
    cases v0 with
    | none =>
        show pg' = (findGuid t.rows kc).getD ""
        rw [hkct]
        rfl
    | some kp => rfl

theorem upsert_post {st : CrawlSt} {taxon : String} {level : Int} {pg : String}
    {api_id : Option String} {rank : String} {raw : Child} {g : String} {st' : CrawlSt}
    (hu : guidUnique st.rows)
    (h : upsert_node st taxon level pg api_id rank raw = .ok (g, st')) :
    runPost pg [((taxon, level), none)] st st' ∧
      findGuid st'.rows (taxon, level) = some g := by
  unfold upsert_node at h
  rw [upsert_find_eq] at h
  cases hf : st.rows.find? (fun r => decide (rowKey r = (taxon, level))) with
  | some row =>
      rw [hf] at h
      dsimp only at h
      injection h with h
      injection h with hg hst
      subst hg
      subst hst
      have hrow_mem : row ∈ st.rows := List.mem_of_find?_eq_some hf
      have hpr := List.find?_some hf
      have hrow_key : rowKey row = (taxon, level) := by simpa using hpr
      have hskel : skel (st.rows.map (fun r =>
          if r.guid = row.guid then { r with parent_guid := pg } else r)) =
            skel st.rows := by
        unfold skel
        rw [List.map_map]
        apply List.map_congr_left
        intro r _
        by_cases hrg : r.guid = row.guid
        · simp [rowSkel, hrg]
        · simp [rowSkel, hrg]
      have hfg : findGuid (st.rows.map (fun r =>
          if r.guid = row.guid then { r with parent_guid := pg } else r))
            (taxon, level) = some row.guid := by
        rw [findGuid_congr hskel]
        unfold findGuid
        rw [hf]
        rfl
      refine ⟨⟨hskel.symm ▸ List.prefix_refl _, ?_, ?_, ?_, ?_, ?_⟩, hfg⟩
      · unfold guidUnique
        rw [List.map_map]
        have : ((fun r : Row => r.guid) ∘ (fun r =>
            if r.guid = row.guid then { r with parent_guid := pg } else r)) =
              (fun r : Row => r.guid) := by
          funext r
          by_cases hrg : r.guid = row.guid
          · simp [hrg]
          · simp [hrg]
        rw [this]
        exact hu
      · intro k hk
        simp only [planKeys, parentKeys, List.map_cons, List.map_nil,
          List.filterMap_cons, List.filterMap_nil, List.mem_append,
          List.mem_cons, List.mem_singleton] at hk
        have hkk : k = (taxon, level) := by tauto
        subst hkk
        rw [hasRowKey_eq_isSome, hfg]
        rfl
      · simp only [List.length_map]
      · intro i r hr hcase
        rw [List.get?_map] at hr
        cases hr0 : st.rows.get? i with
        | none => rw [hr0] at hr; cases hr
        | some r0 =>
            rw [hr0] at hr
            injection hr with hr
            dsimp only at hr
            by_cases hrg : r0.guid = row.guid
            · exfalso
              have hr0r : r0 = row :=
                guid_inj hu (List.get?_mem hr0) hrow_mem hrg
              subst hr0r
              rw [if_pos rfl] at hr
              have hrk : rowKey r = (taxon, level) := by
                rw [← hr]
                exact hrow_key
              rcases hcase with hnone | hnf
              · rw [hrk, lastVis_singleton, if_pos rfl] at hnone
                cases hnone
              · apply hnf
                unfold isFirstOfKey
                rw [hrk, hfg, ← hr]
            · rw [if_neg hrg] at hr
              rw [hr]
      · intro i r v hr hv hfirst
        have hrk : rowKey r = (taxon, level) ∧ v = none := by
          by_cases hk : (taxon, level) = rowKey r
          · rw [lastVis_singleton, if_pos hk] at hv
            injection hv with hv
            exact ⟨hk.symm, hv.symm⟩
          · rw [lastVis_singleton, if_neg hk] at hv
            cases hv
        rw [hrk.2]
        rw [List.get?_map] at hr
        cases hr0 : st.rows.get? i with
        | none => rw [hr0] at hr; cases hr
        | some r0 =>
            rw [hr0] at hr
            injection hr with hr
            dsimp only at hr
            unfold isFirstOfKey at hfirst
            rw [hrk.1, hfg] at hfirst
            injection hfirst with hfirst
            by_cases hrg : r0.guid = row.guid
            · rw [if_pos hrg] at hr
              rw [← hr]
              rfl
            · exfalso
              apply hrg
              rw [if_neg hrg] at hr
              exact hr ▸ hfirst.symm
  | none =>
      rw [hf] at h
      dsimp only at h
      cases hany : st.rows.any (fun r =>
          decide (r.guid = "GBIF_" ++ pyUpper rank ++ "_" ++ pyIdStr api_id)) with
      | true => rw [hany] at h; cases h
      | false =>
          rw [hany] at h
          simp only [Bool.false_eq_true, if_false] at h
          injection h with h
          injection h with hg hst
          subst hg
          subst hst
          have hnokey : ∀ r ∈ st.rows, rowKey r ≠ (taxon, level) := by
            intro r hrm hrk
            have := List.find?_eq_none.mp hf r hrm
            exact this (decide_eq_true hrk)
          have hfresh : ∀ r ∈ st.rows,
              r.guid ≠ "GBIF_" ++ pyUpper rank ++ "_" ++ pyIdStr api_id := by
            intro r hrm hrg
            have := List.any_eq_false.mp hany r hrm
            exact this (decide_eq_true hrg)
          have hskel : skel (st.rows ++
              [⟨"GBIF_" ++ pyUpper rank ++ "_" ++ pyIdStr api_id, taxon, level, pg,
                raw, st.clock⟩]) = skel st.rows ++
              [rowSkel ⟨"GBIF_" ++ pyUpper rank ++ "_" ++ pyIdStr api_id, taxon,
                level, pg, raw, st.clock⟩] := by
            unfold skel
            rw [List.map_append]
            rfl
          have hfg : findGuid (st.rows ++
              [⟨"GBIF_" ++ pyUpper rank ++ "_" ++ pyIdStr api_id, taxon, level, pg,
                raw, st.clock⟩]) (taxon, level) =
              some ("GBIF_" ++ pyUpper rank ++ "_" ++ pyIdStr api_id) := by
            unfold findGuid
            rw [List.find?_append, hf]
            simp [rowKey]
          refine ⟨⟨hskel ▸ List.prefix_append _ _, ?_, ?_, ?_, ?_, ?_⟩, hfg⟩
          · unfold guidUnique
            rw [List.map_append, List.nodup_append]
            refine ⟨hu, List.nodup_singleton _, ?_⟩
            intro a ha hb
            obtain ⟨r, hrm, hra⟩ := List.mem_map.mp ha
            rw [List.map_cons, List.map_nil, List.mem_singleton] at hb
            exact hfresh r hrm (hra.symm ▸ hb)
          · intro k hk
            simp only [planKeys, parentKeys, List.map_cons, List.map_nil,
              List.filterMap_cons, List.filterMap_nil, List.mem_append,
              List.mem_cons, List.mem_singleton] at hk
            have hkk : k = (taxon, level) := by tauto
            subst hkk
            rw [hasRowKey_eq_isSome, hfg]
            rfl
          · rw [List.length_append]
            simp only [List.length_singleton]
            omega
          · intro i r hr hcase
            by_cases hi : i < st.rows.length
            · rw [List.get?_append hi] at hr
              exact hr
            · exfalso
              rw [List.get?_append_right (Nat.le_of_not_lt hi)] at hr
              cases hd : i - st.rows.length with
              | succ j => rw [hd] at hr; cases hr
              | zero =>
                  rw [hd] at hr
                  injection hr with hr
                  have hrk : rowKey r = (taxon, level) := by
                    rw [← hr]
                    rfl
                  rcases hcase with hnone | hnf
                  · rw [hrk, lastVis_singleton, if_pos rfl] at hnone
                    cases hnone
                  · apply hnf
                    unfold isFirstOfKey
                    rw [hrk, hfg, ← hr]
          · intro i r v hr hv hfirst
            have hrk : rowKey r = (taxon, level) ∧ v = none := by
              by_cases hk : (taxon, level) = rowKey r
              · rw [lastVis_singleton, if_pos hk] at hv
                injection hv with hv
                exact ⟨hk.symm, hv.symm⟩
              · rw [lastVis_singleton, if_neg hk] at hv
                cases hv
            rw [hrk.2]
            by_cases hi : i < st.rows.length
            · exfalso
              rw [List.get?_append hi] at hr
              exact hnokey r (List.get?_mem hr) hrk.1
            · rw [List.get?_append_right (Nat.le_of_not_lt hi)] at hr
              cases hd : i - st.rows.length with
              | succ j => rw [hd] at hr; cases hr
              | zero =>
                  rw [hd] at hr
                  injection hr with hr
                  rw [← hr]
                  rfl

theorem ingestGo_post (api : String → List Child) (n : Nat)
    (IH : ∀ aid pg s t, guidUnique s.rows → ingestRecF api n aid pg s = .ok t →
      runPost pg (visitsRec api n aid) s t) :
    ∀ cs pg s t, guidUnique s.rows →
      ingestChildrenGo (ingestRecF api n) cs pg s = .ok t →
      runPost pg (visitsGo (visitsRec api n) cs) s t := by
  intro cs
  induction cs with
  | nil =>
      intro pg s t hu h
      simp only [ingestChildrenGo] at h
      injection h with h
      subst h
      exact runPost_nil pg s hu
  | cons c rest ih =>
      intro pg s t hu h
      simp only [ingestChildrenGo] at h
      simp only [visitsGo]
      cases hn : c.name with
      | none =>
          rw [hn] at h
          exact ih pg s t hu h
      | some nm =>
          rw [hn] at h
          dsimp only at h ⊢
          by_cases hna : nm = "Not assigned" ∨ nm = ""
          · rw [if_pos hna] at h ⊢
            exact ih pg s t hu h
          · rw [if_neg hna] at h ⊢
            cases hcr : c.rank with
            | none =>
                rw [hcr] at h
                simp at h
            | some rank =>
                rw [hcr] at h
                dsimp only at h ⊢
                cases hcl : rankLevel (pyLower rank) with
                | none =>
                    rw [hcl] at h
                    exact ih pg s t hu h
                | some level =>
                    rw [hcl] at h
                    dsimp only at h ⊢
                    cases hup : upsert_node s nm level pg c.id rank c with
                    | error e =>
                        rw [hup] at h
                        simp at h
                    | ok p =>
                        obtain ⟨g, st1⟩ := p
                        rw [hup] at h
                        dsimp only at h
                        have hbase := upsert_post hu hup
                        have hu1 : guidUnique st1.rows := hbase.1.2.1
                        by_cases hsp : pyLower rank ≠ "species"
                        · rw [if_pos hsp] at h ⊢
                          cases hrec : ingestRecF api n (pyIdStr c.id) g st1 with
                          | error e =>
                              rw [hrec] at h
                              simp at h
                          | ok st2 =>
                              rw [hrec] at h
                              dsimp only at h
                              have hsub := IH (pyIdStr c.id) g st1 st2 hu1 hrec
                              have hrep : runPost pg
                                  (reparentVisits (nm, level)
                                    (visitsRec api n (pyIdStr c.id))) st1 st2 :=
                                runPost_reparent g hbase.2 hsub
                              have hu2 : guidUnique st2.rows := hrep.2.1
                              have hrest := ih pg st2 t hu2 h
                              exact runPost_comp hbase.1 (runPost_comp hrep hrest)
                        · rw [if_neg hsp] at h ⊢
                          have hrest := ih pg st1 t hu1 h
                          exact runPost_comp hbase.1 hrest

theorem ingestRec_post (api : String → List Child) :
    ∀ n aid pg s t, guidUnique s.rows → ingestRecF api n aid pg s = .ok t →
      runPost pg (visitsRec api n aid) s t := by
  intro n
  induction n with
  | zero =>
      intro aid pg s t hu h
      simp only [ingestRecF] at h
      injection h with h
      subst h
      exact runPost_nil pg s hu
  | succ n ihn =>
      intro aid pg s t hu h
      simp only [ingestRecF] at h
      simp only [visitsRec]
      by_cases he : (api aid).isEmpty
      · rw [if_pos he] at h ⊢
        injection h with h
        subst h
        exact runPost_nil pg s hu
      · rw [if_neg he] at h ⊢
        exact ingestGo_post api n ihn (api aid) pg s t hu h

theorem planKeys_cons (v : (String × Int) × Option (String × Int)) (l : Plan) :
    planKeys (v :: l) = v.1 :: planKeys l := rfl

theorem planKeys_append (l1 l2 : Plan) :
    planKeys (l1 ++ l2) = planKeys l1 ++ planKeys l2 := List.map_append _ _ _

theorem skel_update (rows : List Row) (g0 pg : String) :
    skel (rows.map (fun r =>
      if r.guid = g0 then { r with parent_guid := pg } else r)) = skel rows := by
  unfold skel
  rw [List.map_map]
  apply List.map_congr_left
  intro r _
  by_cases hrg : r.guid = g0
  · simp [rowSkel, hrg]
  · simp [rowSkel, hrg]

theorem upsert_found {st : CrawlSt} {taxon : String} {level : Int} {pg : String}
    {api_id : Option String} {rank : String} {raw : Child}
    (hk : hasRowKey st.rows (taxon, level) = true) :
    ∃ g st', upsert_node st taxon level pg api_id rank raw = .ok (g, st') ∧
      skel st'.rows = skel st.rows ∧ st'.clock = st.clock := by
  unfold upsert_node
  rw [upsert_find_eq]
  have h1 := hasRowKey_eq_isSome st.rows (taxon, level)
  rw [hk] at h1
  cases hf : st.rows.find? (fun r => decide (rowKey r = (taxon, level))) with
  | none =>
      exfalso
      unfold findGuid at h1
      rw [hf] at h1
      cases h1
  | some row =>
      exact ⟨row.guid, _, rfl, skel_update st.rows row.guid pg, rfl⟩

theorem rerunGo_ok (api : String → List Child) (n : Nat)
    (IH : ∀ aid pg s t pg' s', ingestRecF api n aid pg s = .ok t →
      (∀ k ∈ planKeys (visitsRec api n aid), hasRowKey s'.rows k = true) →
      ∃ t', ingestRecF api n aid pg' s' = .ok t' ∧ skel t'.rows = skel s'.rows ∧
        t'.clock = s'.clock) :
    ∀ cs pg s t pg' s', ingestChildrenGo (ingestRecF api n) cs pg s = .ok t →
      (∀ k ∈ planKeys (visitsGo (visitsRec api n) cs), hasRowKey s'.rows k = true) →
      ∃ t', ingestChildrenGo (ingestRecF api n) cs pg' s' = .ok t' ∧
        skel t'.rows = skel s'.rows ∧ t'.clock = s'.clock := by
  intro cs
  induction cs with
  | nil =>
      intro pg s t pg' s' h hkeys
      exact ⟨s', rfl, rfl, rfl⟩
  | cons c rest ih =>
      intro pg s t pg' s' h hkeys
      simp only [ingestChildrenGo] at h ⊢
      simp only [visitsGo] at hkeys
      cases hn : c.name with
      | none =>
          rw [hn] at h hkeys
          exact ih pg s t pg' s' h hkeys
      | some nm =>
          rw [hn] at h hkeys
          dsimp only at h hkeys ⊢
          by_cases hna : nm = "Not assigned" ∨ nm = ""
          · rw [if_pos hna] at h hkeys ⊢
            exact ih pg s t pg' s' h hkeys
          · rw [if_neg hna] at h hkeys ⊢
            cases hcr : c.rank with
            | none =>
                rw [hcr] at h
                simp at h
            | some rank =>
                rw [hcr] at h hkeys
                dsimp only at h hkeys ⊢
                cases hcl : rankLevel (pyLower rank) with
                | none =>
                    rw [hcl] at h hkeys
                    exact ih pg s t pg' s' h hkeys
                | some level =>
                    rw [hcl] at h hkeys
                    dsimp only at h hkeys ⊢
                    rw [planKeys_cons, planKeys_append] at hkeys
                    have hk1 : hasRowKey s'.rows (nm, level) = true :=
                      hkeys (nm, level) (List.mem_cons_self _ _)
                    obtain ⟨g', st1', hfound, hskel1, hclk1⟩ :=
                      @upsert_found s' nm level pg' c.id rank c hk1
                    rw [hfound]
                    dsimp only
                    cases hup : upsert_node s nm level pg c.id rank c with
                    | error e =>
                        rw [hup] at h
                        simp at h
                    | ok p =>
                        obtain ⟨g, st1⟩ := p
                        rw [hup] at h
                        dsimp only at h
                        by_cases hsp : pyLower rank ≠ "species"
                        · rw [if_pos hsp] at h hkeys ⊢
                          rw [planKeys_reparent] at hkeys
                          cases hrec : ingestRecF api n (pyIdStr c.id) g st1 with
                          | error e =>
                              rw [hrec] at h
                              simp at h
                          | ok st2 =>
                              rw [hrec] at h
                              dsimp only at h
                              obtain ⟨st2', hrec2, hskel2, hclk2⟩ :=
                                IH (pyIdStr c.id) g st1 st2 g' st1' hrec
                                  (fun k hk => by
                                    rw [hasRowKey_congr hskel1]
                                    exact hkeys k (List.mem_cons_of_mem _
                                      (List.mem_append_left _ hk)))
                              rw [hrec2]
                              dsimp only
                              obtain ⟨t', ht', hskel3, hclk3⟩ :=
                                ih pg st2 t pg' st2' h
                                  (fun k hk => by
                                    rw [hasRowKey_congr hskel2,
                                      hasRowKey_congr hskel1]
                                    exact hkeys k (List.mem_cons_of_mem _
                                      (List.mem_append_right _ hk)))
                              refine ⟨t', ht', ?_, ?_⟩
                              · rw [hskel3, hskel2, hskel1]
                              · rw [hclk3, hclk2, hclk1]
                        · rw [if_neg hsp] at h hkeys ⊢
                          obtain ⟨t', ht', hskel3, hclk3⟩ :=
                            ih pg st1 t pg' st1' h
                              (fun k hk => by
                                rw [hasRowKey_congr hskel1]
                                exact hkeys k (List.mem_cons_of_mem _
                                  (List.mem_append_right _ hk)))
                          refine ⟨t', ht', ?_, ?_⟩
                          · rw [hskel3, hskel1]
                          · rw [hclk3, hclk1]

theorem rerun_ok (api : String → List Child) :
    ∀ n aid pg s t pg' s', ingestRecF api n aid pg s = .ok t →
      (∀ k ∈ planKeys (visitsRec api n aid), hasRowKey s'.rows k = true) →
      ∃ t', ingestRecF api n aid pg' s' = .ok t' ∧ skel t'.rows = skel s'.rows ∧
        t'.clock = s'.clock := by
  intro n
  induction n with
  | zero =>
      intro aid pg s t pg' s' h hkeys
      exact ⟨s', rfl, rfl, rfl⟩
  | succ n ihn =>
      intro aid pg s t pg' s' h hkeys
      simp only [ingestRecF] at h ⊢
      simp only [visitsRec] at hkeys
      by_cases he : (api aid).isEmpty
      · rw [if_pos he]
        exact ⟨s', rfl, rfl, rfl⟩
      · rw [if_neg he] at h hkeys ⊢
        exact rerunGo_ok api n ihn (api aid) pg s t pg' s' h hkeys

theorem row_ext {r r' : Row} (hs : rowSkel r = rowSkel r')
    (hp : r.parent_guid = r'.parent_guid) : r = r' := by
  cases r with
  | mk g tx lv pa rj ia =>
      cases r' with
      | mk g' tx' lv' pa' rj' ia' =>
          simp only [rowSkel, Prod.mk.injEq] at hs
          dsimp at hp
          obtain ⟨e1, e2, e3, e4, e5⟩ := hs
          subst e1
          subst e2
          subst e3
          subst e4
          subst e5
          subst hp
          rfl

theorem run2_eq (api : String → List Child) (n : Nat) (aid pg : String)
    (st0 st1 : CrawlSt) (h0 : guidUnique st0.rows)
    (h1 : ingestRecF api n aid pg st0 = .ok st1) :
    ingestRecF api n aid pg st1 = .ok st1 := by
  obtain ⟨hpre1, hu1, hkeys1, hclk1, h4a1, h4b1⟩ :=
    ingestRec_post api n aid pg st0 st1 h0 h1
  obtain ⟨st2, h2, hskel2, hclk2⟩ :=
    rerun_ok api n aid pg st0 st1 pg st1 h1
      (fun k hk => hkeys1 k (List.mem_append_left _ hk))
  obtain ⟨hpre2, hu2, hkeys2, hclk2', h4a2, h4b2⟩ :=
    ingestRec_post api n aid pg st1 st2 hu1 h2
  have hlen : st2.rows.length = st1.rows.length := by
    have := congrArg List.length hskel2
    simpa [skel] using this
  have hrows : st2.rows = st1.rows := by
    apply List.ext_get?
    intro i
    by_cases hi : i < st1.rows.length
    · obtain ⟨r2, hr2⟩ : ∃ r2, st2.rows.get? i = some r2 :=
        ⟨_, List.get?_eq_get (hlen ▸ hi)⟩
      obtain ⟨r1, hr1⟩ : ∃ r1, st1.rows.get? i = some r1 :=
        ⟨_, List.get?_eq_get hi⟩
      rw [hr2, hr1]
      have h2' := congrArg (fun l => l.get? i) hskel2
      dsimp only at h2'
      unfold skel at h2'
      rw [List.get?_map, List.get?_map, hr2, hr1] at h2'
      simp only [Option.map_some'] at h2'
      have hsk : rowSkel r2 = rowSkel r1 := by injection h2'
      have hkey : rowKey r2 = rowKey r1 := congrArg skKey hsk
      have hguid : r2.guid = r1.guid := congrArg (fun e => e.1) hsk
      congr 1
      apply row_ext hsk
      cases hlv : lastVis (visitsRec api n aid) (rowKey r2) with
      | none =>
          have hfix := h4a2 i r2 hr2 (Or.inl hlv)
          rw [hr1] at hfix
          injection hfix with hfix
          rw [hfix]
      | some v =>
          by_cases hf2 : isFirstOfKey st2.rows r2
          · have hp2 := h4b2 i r2 v hr2 hlv hf2
            have hf1 : isFirstOfKey st1.rows r1 := by
              unfold isFirstOfKey at hf2 ⊢
              rw [findGuid_congr hskel2, hkey, hguid] at hf2
              exact hf2
            have hp1 := h4b1 i r1 v hr1 (hkey ▸ hlv) hf1
            rw [hp2, hp1]
            exact resolveVal_congr hskel2 pg v
          · have hfix := h4a2 i r2 hr2 (Or.inr hf2)
            rw [hr1] at hfix
            injection hfix with hfix
            rw [hfix]
    · rw [List.get?_eq_none.mpr (Nat.le_of_not_lt hi),
        List.get?_eq_none.mpr (by omega : st2.rows.length ≤ i)]
  have hst : st2 = st1 := by
    cases st2 with
    | mk r2 c2 =>
        cases st1 with
        | mk r1 c1 =>
            dsimp only at hrows hclk2
            rw [hrows, hclk2]
  rw [hst] at h2
  exact h2

/-- Claim C2: for a source whose children listings are unchanged between
runs, a second crawler run is a no-op.  Starting from any store satisfying
the guid primary-key invariant, if the first run succeeds, running the
crawler again from the resulting store succeeds and returns that store
exactly — same rows (hence the same minted identifiers, the same parent
links, the same row count) and the same clock; re-sighted nodes only
rewrite their parent link to the value it already carries, and nothing is
inserted. -/
theorem C2_theorem (api : String → List Child) (idx : Nat) (aid pg : String)
    (st0 st1 : CrawlSt) (h0 : guidUnique st0.rows)
    (h1 : ingest_recursive api idx aid pg st0 = .ok st1) :
    ingest_recursive api idx aid pg st1 = .ok st1 :=
  run2_eq api (RANK_LEVEL_MAP.length - idx) aid pg st0 st1 h0 h1

/-- Witness for C2: the phylum/class source crawled from the empty store;
the second run reproduces the two-row store exactly. -/
theorem C2_witness :
    guidUnique (CrawlSt.mk [] 0).rows ∧
    ingest_recursive apiScenario 0 "F" ANCHOR_FUNGI_GUID ⟨[], 0⟩ = .ok c2St1 ∧
    ingest_recursive apiScenario 0 "F" ANCHOR_FUNGI_GUID c2St1 = .ok c2St1 :=
  ⟨List.nodup_nil, by decide,
   C2_theorem apiScenario 0 "F" ANCHOR_FUNGI_GUID ⟨[], 0⟩ c2St1 List.nodup_nil
     (by decide)⟩

/-! ## Claim C3 — the response interpreter -/

theorem pySlice_empty (cs : List Char) {a b : Nat} (h : b ≤ a) :
    pySlice cs a b = [] := by
  simp [pySlice, Nat.sub_eq_zero_of_le h]

theorem charPositions_sorted (ch : Char) (cs : List Char) :
    (charPositions ch cs).Pairwise (· < ·) :=
  (List.pairwise_lt_range cs.length).filter _

theorem mem_le_getLast : ∀ {l : List Nat}, l.Pairwise (· < ·) →
    ∀ {x y : Nat}, x ∈ l → l.getLast? = some y → x ≤ y := by
  intro l
  induction l with
  | nil => intro _ x y hx; cases hx
  | cons a as ih =>
      intro hp x y hx hy
      rcases List.mem_cons.mp hx with rfl | hx
      · cases as with
        | nil =>
            simp only [List.getLast?_singleton, Option.some.injEq] at hy
            omega
        | cons b bs =>
            rw [List.getLast?_cons_cons] at hy
            have hym : y ∈ b :: bs := List.mem_of_getLast?_eq_some hy
            have := (List.pairwise_cons.mp hp).1 y hym
            omega
      · have hne : as ≠ [] := List.ne_nil_of_mem hx
        have : (a :: as).getLast? = as.getLast? := by
          cases as with
          | nil => exact absurd rfl hne
          | cons b bs => exact List.getLast?_cons_cons
        rw [this] at hy
        exact ih (List.Pairwise.of_cons hp) hx hy

theorem specStep3_lt_none {J : Type} (loads : List Char → Option J) (isList : J → Bool)
    (text : List Char) (f : Nat) (hload : loads [] = none) :
    ∀ ds : List Nat, (∀ e ∈ ds, e < f) →
      specStep3 loads isList text f ds = none := by
  intro ds
  induction ds with
  | nil => intro _; rfl
  | cons e es ih =>
      intro h
      have he : e < f := h e (List.mem_cons_self e es)
      simp only [specStep3]
      rw [pySlice_empty text (by omega), hload]
      exact ih fun x hx => h x (List.mem_cons_of_mem _ hx)

theorem extractLoop_eq_specStep3 {J : Type} (loads : List Char → Option J)
    (isList : J → Bool) (text : List Char) (f : Nat) (hload : loads [] = none) :
    ∀ ds : List Nat, ds.Pairwise (· > ·) →
      extractLoop loads isList text f ds = specStep3 loads isList text f ds := by
  intro ds
  induction ds with
  | nil => intro _; rfl
  | cons e es ih =>
      intro hp
      simp only [extractLoop, specStep3]
      by_cases he : e < f
      · rw [if_pos he]
        rw [pySlice_empty text (by omega), hload]
        symm
        apply specStep3_lt_none loads isList text f hload
        intro x hx
        have := (List.pairwise_cons.mp hp).1 x hx
        omega
      · rw [if_neg he]
        cases hl : loads (pySlice text f (e + 1)) with
        | some d =>
            dsimp only
            cases hd : isList d
            · simp only [Bool.false_eq_true, if_false]
              exact ih (List.Pairwise.of_cons hp)
            · rfl
        | none =>
            dsimp only
            exact ih (List.Pairwise.of_cons hp)

theorem extract_eq_specExtract {J : Type} (loads : List Char → Option J)
    (isList : J → Bool) (hload : loads [] = none) (text : List Char) :
    extract_json_array loads isList text = specExtract loads isList text := by
  unfold extract_json_array specExtract
  cases hf : pyFind '[' text with
  | none => rfl
  | some f =>
      have hrevp : ((charPositions ']' text).reverse).Pairwise (· > ·) :=
        List.pairwise_reverse.mpr
          ((charPositions_sorted ']' text).imp fun h => h)
      cases hr : pyRfind ']' text with
      | none =>
          have hcp : charPositions ']' text = [] := by
            unfold pyRfind at hr
            exact List.getLast?_eq_none_iff.mp hr
          rw [hcp]
          rfl
      | some l =>
          have hmem : ∀ e ∈ (charPositions ']' text).reverse, e ≤ l := by
            intro e he
            exact mem_le_getLast (charPositions_sorted ']' text)
              (List.mem_reverse.mp he) hr
          dsimp only
          by_cases hlf : l < f
          · rw [if_pos hlf]
            rw [pySlice_empty text (by omega), hload]
            symm
            dsimp only
            apply specStep3_lt_none loads isList text f hload
            intro x hx
            have := hmem x hx
            omega
          · rw [if_neg hlf]
            cases hl2 : loads (pySlice text f (l + 1)) with
            | some d =>
                dsimp only
                cases hd : isList d
                · simp only [Bool.false_eq_true, if_false]
                  exact extractLoop_eq_specStep3 loads isList text f hload _ hrevp
                · rfl
            | none =>
                dsimp only
                exact extractLoop_eq_specStep3 loads isList text f hload _ hrevp

/-- Claim C3: the response interpreter of both scripts computes exactly the
specification's four-step algorithm (strict whole-body parse returned when
a list; the first-`[`-to-last-`]` substring; every `]` position in
descending order; failure otherwise), given only that the JSON parser
rejects the empty string as `json.loads` does; in particular every valid
JSON-array body is returned exactly unchanged, and the two scripts'
extraction functions agree. -/
theorem C3_theorem {J : Type} (loads : List Char → Option J) (isList : J → Bool)
    (hload : loads [] = none) :
    (∀ text, fetch_interpret loads isList text = specInterpret loads isList text) ∧
    (∀ text, extract_json_array_fg loads isList text
        = extract_json_array loads isList text) ∧
    (∀ text d, loads text = some d → isList d = true →
      fetch_interpret loads isList text = some d) := by
  refine ⟨?_, ?_, ?_⟩
  · intro text
    unfold fetch_interpret specInterpret
    cases hl : loads text with
    | some d =>
        dsimp only
        cases hd : isList d
        · simp only [Bool.false_eq_true, if_false]
          exact extract_eq_specExtract loads isList hload text
        · rfl
    | none => exact extract_eq_specExtract loads isList hload text
  · intro text
    unfold extract_json_array_fg
    by_cases hcp : (charPositions '[' text).isEmpty
    · rw [if_pos hcp]
      unfold extract_json_array
      have hfind : pyFind '[' text = none := by
        unfold pyFind
        rw [List.isEmpty_iff.mp hcp]
        rfl
      rw [hfind]
    · rw [if_neg hcp]
  · intro text d hld hls
    unfold fetch_interpret
    rw [hld]
    dsimp only
    rw [hls]
    rfl

/-- Witness for C3 at the toy parser and concrete bodies. -/
theorem C3_witness :
    fetch_interpret loadsToy (fun _ => true) ("ab[]cd".data)
      = specInterpret loadsToy (fun _ => true) ("ab[]cd".data) ∧
    extract_json_array_fg loadsToy (fun _ => true) ("ab[]cd".data)
      = extract_json_array loadsToy (fun _ => true) ("ab[]cd".data) ∧
    fetch_interpret loadsToy (fun _ => true) ['[', ']'] = some 0 :=
  ⟨(C3_theorem loadsToy (fun _ => true) (by decide)).1 _,
   (C3_theorem loadsToy (fun _ => true) (by decide)).2.1 _,
   (C3_theorem loadsToy (fun _ => true) (by decide)).2.2 ['[', ']'] 0 (by decide) rfl⟩

end Fungi
